import Mathlib

/-!
QSparqlResult: the navigation state machine of a SPARQL result.

A shallow embedding of `src/sparql/kernel/qsparqlresult.cpp`.

* The private data `QSparqlResultPrivate` becomes a structure, every member
  function a pure function on it; a function that both answers and mutates
  returns the pair of its answer and the new object.
* `hasFeature`, `size` and `isFinished` are virtual: a concrete result class
  answers them.  Their answers are the record `Virtuals` carried by the
  object; `Virtuals.base` holds the answers of `QSparqlResult` itself.
* `int` is a 32-bit two's complement integer: values are `Int`, and the three
  places where the source computes on an `int` (`pos() + 1`, `pos() - 1` and
  `s - 1`) reduce their result with `wrapInt`.
-/

/-- Largest value of the C++ type `int`. -/
def INT_MAX : Int := 2147483647

/-- Smallest value of the C++ type `int`. -/
def INT_MIN : Int := -2147483648

/-- Result of an `int` computation whose mathematical value is `x`. -/
def wrapInt (x : Int) : Int := (x + 2147483648) % 4294967296 - 2147483648

namespace QSparql

/-- Modelled from the spec: `QSparql::BeforeFirstRow`, declared in `qsparql.h`,
which is not among the sources.  The source calls the two positions "special
negative values"; the header gives this one the value `-1`. -/
def BeforeFirstRow : Int := -1

/-- Modelled from the spec: `QSparql::AfterLastRow`, declared in `qsparql.h`,
which is not among the sources; the header gives it the value `-2`. -/
def AfterLastRow : Int := -2

end QSparql

namespace QSparqlQuery

/-- Modelled from the spec: `QSparqlQuery::StatementType`, declared in
`qsparqlquery.h`, which is not among the sources.  The spec lists the four
statement types the result class tells apart. -/
inductive StatementType where
  | SelectStatement
  | AskStatement
  | ConstructStatement
  | DescribeStatement
  deriving DecidableEq, Repr

end QSparqlQuery

namespace QSparqlError

/-- Modelled from the spec: `QSparqlError::ErrorType`, declared in
`qsparqlerror.h`, which is not among the sources. -/
inductive ErrorType where
  | NoError
  | ConnectionError
  | StatementError
  | TransactionError
  | BackendError
  deriving DecidableEq, Repr

end QSparqlError

/-- Modelled from the spec: the value class `QSparqlError` of `qsparqlerror.h`
and `qsparqlerror.cpp`, which are not among the sources: a failure kind and a
message. -/
structure QSparqlError where
  type : QSparqlError.ErrorType
  message : String
  deriving DecidableEq, Repr

namespace QSparqlError

/-- Modelled from the spec: the default-constructed `QSparqlError()`, of kind
`NoError`. -/
def new : QSparqlError := { type := ErrorType.NoError, message := "" }

/-- Modelled from the spec: `QSparqlError::isValid()`, true for any kind other
than `NoError`. -/
def isValid (e : QSparqlError) : Bool := e.type != ErrorType.NoError

end QSparqlError

/-- The private data of a result (`class QSparqlResultPrivate`). -/
structure QSparqlResultPrivate where
  idx : Int
  sparql : String
  statementType : QSparqlQuery.StatementType
  error : QSparqlError
  boolValue : Bool
  deriving DecidableEq, Repr

/-- The constructor `QSparqlResultPrivate()`. -/
def QSparqlResultPrivate.new : QSparqlResultPrivate :=
  { idx := QSparql.BeforeFirstRow,
    sparql := "",
    statementType := QSparqlQuery.StatementType.SelectStatement,
    error := QSparqlError.new,
    boolValue := false }

namespace QSparqlResult

/-- The enum `QSparqlResult::Feature` (documented at lines 611-635 of the
source). -/
inductive Feature where
  | QuerySize
  | ForwardOnly
  | Sync
  deriving DecidableEq, Repr

end QSparqlResult

/-- Answers of the virtual member functions that the navigation code calls
and a concrete result class overrides: which features it advertises, what
`size()` returns and what `isFinished()` returns. -/
structure Virtuals where
  querySize : Bool
  forwardOnly : Bool
  sync : Bool
  size : Int
  isFinished : Bool
  deriving DecidableEq, Repr

/-- The answers of `QSparqlResult` itself: `hasFeature` returns false for
every feature, `size()` returns -1 and `isFinished()` returns false. -/
def Virtuals.base : Virtuals :=
  { querySize := false, forwardOnly := false, sync := false, size := -1,
    isFinished := false }

/-- A result object: its private data and the answers of its class. -/
structure QSparqlResult where
  d : QSparqlResultPrivate
  v : Virtuals
  deriving DecidableEq, Repr

namespace QSparqlResult

/-- The constructor `QSparqlResult::QSparqlResult()`, for a class with the
answers `v`. -/
def new (v : Virtuals) : QSparqlResult := { d := QSparqlResultPrivate.new, v := v }

def query (r : QSparqlResult) : String := r.d.sparql

def statementType (r : QSparqlResult) : QSparqlQuery.StatementType := r.d.statementType

def setQuery (r : QSparqlResult) (query : String) : QSparqlResult :=
  { r with d := { r.d with sparql := query } }

def setStatementType (r : QSparqlResult) (type : QSparqlQuery.StatementType) :
    QSparqlResult :=
  { r with d := { r.d with statementType := type } }

def isTable (r : QSparqlResult) : Bool :=
  r.d.statementType == QSparqlQuery.StatementType.SelectStatement

def isGraph (r : QSparqlResult) : Bool :=
  r.d.statementType == QSparqlQuery.StatementType.ConstructStatement
    || r.d.statementType == QSparqlQuery.StatementType.DescribeStatement

def isBool (r : QSparqlResult) : Bool :=
  r.d.statementType == QSparqlQuery.StatementType.AskStatement

/-- The member `boolValue()`; the warning it prints is not modelled. -/
def boolValue (r : QSparqlResult) : Bool := r.d.boolValue

def setBoolValue (r : QSparqlResult) (b : Bool) : QSparqlResult :=
  { r with d := { r.d with boolValue := b } }

def pos (r : QSparqlResult) : Int := r.d.idx

def isValid (r : QSparqlResult) : Bool :=
  r.d.idx != QSparql.BeforeFirstRow && r.d.idx != QSparql.AfterLastRow

/-- The virtual `isFinished()`, as the class of `r` answers it. -/
def isFinished (r : QSparqlResult) : Bool := r.v.isFinished

/-- The virtual `size()`, as the class of `r` answers it. -/
def size (r : QSparqlResult) : Int := r.v.size

/-- The virtual `hasFeature(feature)`, as the class of `r` answers it. -/
def hasFeature (r : QSparqlResult) (f : Feature) : Bool :=
  match f with
  | Feature.QuerySize => r.v.querySize
  | Feature.ForwardOnly => r.v.forwardOnly
  | Feature.Sync => r.v.sync

/-- The member `setPos(int pos)`. -/
def setPos (r : QSparqlResult) (pos : Int) : Bool × QSparqlResult :=
  if r.hasFeature Feature.ForwardOnly then (false, r)
  else
    let s := r.size
    if pos < 0 || (s >= 0 && pos >= s) then (false, r)
    else (true, { r with d := { r.d with idx := pos } })

/-- The member `last()`. -/
def last (r : QSparqlResult) : Bool × QSparqlResult :=
  if r.hasFeature Feature.ForwardOnly then (false, r)
  else
    let s := r.size
    if s < 0 then (false, r)
    else r.setPos (wrapInt (s - 1))

/-- Lines 324-328 of `next()`: on a result that advertises ForwardOnly,
`next()` warns, changes nothing and returns false. -/
def nextOnForwardOnly (r : QSparqlResult) : Bool × QSparqlResult := (false, r)

/-- The body of the member `first()`.  Its call `next()` is a virtual call:
`vnext` is the `next` of the class of the object. -/
def firstWith (vnext : QSparqlResult → Bool × QSparqlResult) (r : QSparqlResult) :
    Bool × QSparqlResult :=
  if r.pos = 0 then (true, r)
  else if r.hasFeature Feature.ForwardOnly then
    if r.pos = QSparql.BeforeFirstRow then vnext r
    else (false, r)
  else r.setPos 0

/-- The member `next()`; the warning it prints is not modelled.  `first()`
calls `next()` back on a ForwardOnly result only, where `next()` is
`nextOnForwardOnly`; `first_eq_firstWith` shows that this is the same as
calling `first`. -/
def next (r : QSparqlResult) : Bool × QSparqlResult :=
  if r.hasFeature Feature.ForwardOnly then nextOnForwardOnly r
  else
    let s := r.size
    if s < 0 then (false, r)
    else if r.pos = QSparql.BeforeFirstRow then
      if s = 0 then (false, { r with d := { r.d with idx := QSparql.AfterLastRow } })
      else firstWith nextOnForwardOnly r
    else if r.pos = QSparql.AfterLastRow then (false, r)
    else if s < 0 || wrapInt (r.pos + 1) < s then r.setPos (wrapInt (r.pos + 1))
    else (false, { r with d := { r.d with idx := QSparql.AfterLastRow } })

/-- The member `first()` of a class that does not override `next()`. -/
def first (r : QSparqlResult) : Bool × QSparqlResult := firstWith next r

/-- The member `previous()`. -/
def previous (r : QSparqlResult) : Bool × QSparqlResult :=
  if r.hasFeature Feature.ForwardOnly then (false, r)
  else if r.pos = QSparql.BeforeFirstRow then (false, r)
  else if r.pos = QSparql.AfterLastRow then
    if r.size = 0 then (false, { r with d := { r.d with idx := QSparql.BeforeFirstRow } })
    else r.last
  else if r.pos = 0 then
    (false, { r with d := { r.d with idx := QSparql.BeforeFirstRow } })
  else r.setPos (wrapInt (r.pos - 1))

/-- The member `updatePos(int index)`. -/
def updatePos (r : QSparqlResult) (index : Int) : QSparqlResult :=
  { r with d := { r.d with idx := index } }

def setLastError (r : QSparqlResult) (error : QSparqlError) : QSparqlResult :=
  { r with d := { r.d with error := error } }

def hasError (r : QSparqlResult) : Bool := r.isFinished && r.d.error.isValid

def lastError (r : QSparqlResult) : QSparqlError :=
  if !r.isFinished then QSparqlError.new else r.d.error

/-- The member `waitForFinished()`, whose body is empty. -/
def waitForFinished (r : QSparqlResult) : QSparqlResult := r

end QSparqlResult

/-- The state after `k` successive calls of `next()`. -/
def nextTimes : Nat → QSparqlResult → QSparqlResult
  | 0, r => r
  | k + 1, r => (QSparqlResult.next (nextTimes k r)).2

/-- The state after `k` successive calls of `previous()`. -/
def previousTimes : Nat → QSparqlResult → QSparqlResult
  | 0, r => r
  | k + 1, r => (QSparqlResult.previous (previousTimes k r)).2

/-- A call of one of the five navigation members. -/
inductive NavCall where
  | next
  | previous
  | first
  | last
  | setPos (p : Int)
  deriving DecidableEq, Repr

/-- The answer of a navigation call and the object it leaves. -/
def NavCall.run : NavCall → QSparqlResult → Bool × QSparqlResult
  | NavCall.next, r => QSparqlResult.next r
  | NavCall.previous, r => QSparqlResult.previous r
  | NavCall.first, r => QSparqlResult.first r
  | NavCall.last, r => QSparqlResult.last r
  | NavCall.setPos p, r => QSparqlResult.setPos r p

/-- The object after a sequence of navigation calls, made in order. -/
def navigate : List NavCall → QSparqlResult → QSparqlResult
  | [], r => r
  | c :: cs, r => navigate cs (c.run r).2

/-- The position is one of the two sentinels or a row of a result of `n`
rows. -/
def PosInRange (n : Int) (r : QSparqlResult) : Prop :=
  r.pos = QSparql.BeforeFirstRow ∨ r.pos = QSparql.AfterLastRow ∨ (0 ≤ r.pos ∧ r.pos < n)

/-- Modelled from the spec: the `next()` of a ForwardOnly result class.  Such a
class overrides `next()` (source, lines 322-323) in the drivers, which are not
among the sources.  Over a stream of `rows` rows it makes the transitions the
spec gives for `next()`: "BeforeFirst → AtRow(0) if a row exists, else →
AfterLast", "AtRow(i) → AtRow(i+1) if i+1 < size, else → AfterLast",
"AfterLast → AfterLast (no-op, returns failure)", and records the position
with `updatePos`. -/
def forwardOnlyNext (rows : Int) (r : QSparqlResult) : Bool × QSparqlResult :=
  if r.pos = QSparql.AfterLastRow then (false, r)
  else if r.pos = QSparql.BeforeFirstRow then
    if 0 < rows then (true, r.updatePos 0)
    else (false, r.updatePos QSparql.AfterLastRow)
  else if r.pos + 1 < rows then (true, r.updatePos (r.pos + 1))
  else (false, r.updatePos QSparql.AfterLastRow)

/-- The result stands on a row that can be read: not on a sentinel, on a
non-negative index, below `size()` when `size()` is known. -/
def OnReadableRow (r : QSparqlResult) : Prop :=
  r.isValid = true ∧ 0 ≤ r.pos ∧ (0 ≤ r.size → r.pos < r.size)

/-! Basic facts about the embedding. -/

namespace QSparqlResult

/-- In `next()`, calling `first()` is what the definition of `next` does:
the answer passed for the virtual call is the answer of `next` itself. -/
theorem first_eq_firstWith (r : QSparqlResult) :
    firstWith nextOnForwardOnly r = first r := by
  unfold first firstWith
  by_cases h0 : r.pos = 0
  · simp [h0]
  · by_cases hf : r.hasFeature Feature.ForwardOnly = true
    · simp [h0, hf, next]
    · simp [h0, hf]

/-- The recursive equation of the source: `next()` written with `first()`. -/
theorem next_unfold (r : QSparqlResult) :
    next r =
      if r.hasFeature Feature.ForwardOnly then (false, r)
      else if r.size < 0 then (false, r)
      else if r.pos = QSparql.BeforeFirstRow then
        if r.size = 0 then (false, r.updatePos QSparql.AfterLastRow) else first r
      else if r.pos = QSparql.AfterLastRow then (false, r)
      else if r.size < 0 || wrapInt (r.pos + 1) < r.size then r.setPos (wrapInt (r.pos + 1))
      else (false, r.updatePos QSparql.AfterLastRow) := by
  rw [← first_eq_firstWith]
  rfl

theorem wrapInt_of_inRange (x : Int) (h1 : INT_MIN ≤ x) (h2 : x ≤ INT_MAX) :
    wrapInt x = x := by
  unfold wrapInt
  unfold INT_MIN at h1
  unfold INT_MAX at h2
  omega

theorem next_before (r : QSparqlResult) (hfo : r.hasFeature Feature.ForwardOnly = false)
    (hs : 0 < r.size) (hp : r.pos = QSparql.BeforeFirstRow) :
    next r = (true, r.updatePos 0) := by
  have h1 : ¬ r.size < 0 := by omega
  have h2 : ¬ r.size = 0 := by omega
  have h3 : ¬ r.pos = 0 := by rw [hp]; decide
  rw [next_unfold]
  have h4 : ¬ QSparql.BeforeFirstRow = 0 := by decide
  have h5 : ¬ r.size ≤ 0 := by omega
  simp [hfo, h1, h2, hp, first, firstWith, setPos, updatePos, h4, h5]

theorem next_before_empty (r : QSparqlResult) (hfo : r.hasFeature Feature.ForwardOnly = false)
    (hs : r.size = 0) (hp : r.pos = QSparql.BeforeFirstRow) :
    next r = (false, r.updatePos QSparql.AfterLastRow) := by
  rw [next_unfold]
  simp [hfo, hs, hp]

theorem next_after (r : QSparqlResult) (hp : r.pos = QSparql.AfterLastRow) :
    next r = (false, r) := by
  have h3 : ¬ QSparql.AfterLastRow = QSparql.BeforeFirstRow := by decide
  rw [next_unfold]
  simp only [hp, h3, if_false, if_true]
  split_ifs <;> rfl

theorem next_row (r : QSparqlResult) (hfo : r.hasFeature Feature.ForwardOnly = false)
    (hmax : r.size ≤ INT_MAX) (h0 : 0 ≤ r.pos) (h1 : r.pos + 1 < r.size) :
    next r = (true, r.updatePos (r.pos + 1)) := by
  have hw : wrapInt (r.pos + 1) = r.pos + 1 :=
    wrapInt_of_inRange _ (by unfold INT_MIN; omega) (by omega)
  have hb : ¬ r.pos = QSparql.BeforeFirstRow := by unfold QSparql.BeforeFirstRow; omega
  have ha : ¬ r.pos = QSparql.AfterLastRow := by unfold QSparql.AfterLastRow; omega
  have hs : ¬ r.size < 0 := by omega
  have hn : ¬ r.pos + 1 < 0 := by omega
  have hn2 : ¬ r.size ≤ r.pos + 1 := by omega
  rw [next_unfold]
  simp [hfo, hw, hb, ha, hs, h1, setPos, updatePos, hn, hn2]

theorem next_lastRow (r : QSparqlResult) (hfo : r.hasFeature Feature.ForwardOnly = false)
    (hs : 0 ≤ r.size) (h0 : 0 ≤ r.pos) (hmax : r.pos < INT_MAX) (h1 : r.size ≤ r.pos + 1) :
    next r = (false, r.updatePos QSparql.AfterLastRow) := by
  have hw : wrapInt (r.pos + 1) = r.pos + 1 :=
    wrapInt_of_inRange _ (by unfold INT_MIN; omega) (by omega)
  have hb : ¬ r.pos = QSparql.BeforeFirstRow := by unfold QSparql.BeforeFirstRow; omega
  have ha : ¬ r.pos = QSparql.AfterLastRow := by unfold QSparql.AfterLastRow; omega
  have hs : ¬ r.size < 0 := by omega
  have hn2 : ¬ r.pos + 1 < r.size := by omega
  rw [next_unfold]
  simp [hfo, hw, hb, ha, hs, hn2]

theorem previous_before (r : QSparqlResult) (hp : r.pos = QSparql.BeforeFirstRow) :
    previous r = (false, r) := by
  unfold previous
  simp only [hp, if_true]
  split_ifs <;> rfl

theorem previous_zero (r : QSparqlResult) (hfo : r.hasFeature Feature.ForwardOnly = false)
    (hp : r.pos = 0) : previous r = (false, r.updatePos QSparql.BeforeFirstRow) := by
  have h1 : ¬ (0 : Int) = QSparql.BeforeFirstRow := by decide
  have h2 : ¬ (0 : Int) = QSparql.AfterLastRow := by decide
  unfold previous
  simp [hfo, hp, h1, h2, updatePos]

theorem previous_after_empty (r : QSparqlResult)
    (hfo : r.hasFeature Feature.ForwardOnly = false) (hs : r.size = 0)
    (hp : r.pos = QSparql.AfterLastRow) :
    previous r = (false, r.updatePos QSparql.BeforeFirstRow) := by
  have h1 : ¬ QSparql.AfterLastRow = QSparql.BeforeFirstRow := by decide
  unfold previous
  simp [hfo, hp, h1, hs, updatePos]

theorem last_nonempty (r : QSparqlResult) (hfo : r.hasFeature Feature.ForwardOnly = false)
    (hs : 0 < r.size) (hmax : r.size ≤ INT_MAX) :
    last r = (true, r.updatePos (r.size - 1)) := by
  have hw : wrapInt (r.size - 1) = r.size - 1 :=
    wrapInt_of_inRange _ (by unfold INT_MIN; omega) (by omega)
  have h1 : ¬ r.size < 0 := by omega
  have h2 : ¬ r.size - 1 < 0 := by omega
  unfold last
  simp [hfo, h1, hw, setPos, h2, updatePos]

theorem last_empty (r : QSparqlResult) (hs : r.size = 0) : last r = (false, r) := by
  have hw : wrapInt (0 - 1) < 0 := by decide
  unfold last setPos
  simp [hs, hw]

theorem previous_after (r : QSparqlResult) (hfo : r.hasFeature Feature.ForwardOnly = false)
    (hs : 0 < r.size) (hmax : r.size ≤ INT_MAX) (hp : r.pos = QSparql.AfterLastRow) :
    previous r = (true, r.updatePos (r.size - 1)) := by
  have h1 : ¬ QSparql.AfterLastRow = QSparql.BeforeFirstRow := by decide
  have h2 : ¬ r.size = 0 := by omega
  rw [← last_nonempty r hfo hs hmax]
  unfold previous
  simp [hfo, hp, h1, h2]

theorem previous_row (r : QSparqlResult) (hfo : r.hasFeature Feature.ForwardOnly = false)
    (h0 : 0 < r.pos) (hmax : r.pos ≤ INT_MAX) (h1 : r.size < 0 ∨ r.pos ≤ r.size) :
    previous r = (true, r.updatePos (r.pos - 1)) := by
  have hw : wrapInt (r.pos - 1) = r.pos - 1 :=
    wrapInt_of_inRange _ (by unfold INT_MIN; omega) (by omega)
  have hb : ¬ r.pos = QSparql.BeforeFirstRow := by unfold QSparql.BeforeFirstRow; omega
  have ha : ¬ r.pos = QSparql.AfterLastRow := by unfold QSparql.AfterLastRow; omega
  have hz : ¬ r.pos = 0 := by omega
  have h2 : ¬ r.pos - 1 < 0 := by omega
  have h3 : ¬ (0 ≤ r.size ∧ r.size ≤ r.pos - 1) := by omega
  unfold previous
  simp [hfo, hb, ha, hz, hw, setPos, h2, h3, updatePos]

@[simp]
theorem updatePos_pos (r : QSparqlResult) (i : Int) : (r.updatePos i).pos = i := rfl

@[simp]
theorem updatePos_size (r : QSparqlResult) (i : Int) : (r.updatePos i).size = r.size :=
  rfl

@[simp]
theorem updatePos_hasFeature (r : QSparqlResult) (i : Int) (f : Feature) :
    (r.updatePos i).hasFeature f = r.hasFeature f := by
  cases f <;> rfl

@[simp]
theorem updatePos_updatePos (r : QSparqlResult) (i j : Int) :
    (r.updatePos i).updatePos j = r.updatePos j := rfl

theorem updatePos_self (r : QSparqlResult) (i : Int) (h : r.pos = i) : r.updatePos i = r := by
  obtain ⟨⟨idx, q, st, e, b⟩, v⟩ := r
  simp only [pos] at h
  simp [updatePos, h]

/-- The first `k + 1` calls of `next()` on a result of more than `k` rows that
starts before the first row: the last of them returns true and stands on
row `k`. -/
theorem next_nextTimes (r : QSparqlResult) (hfo : r.hasFeature Feature.ForwardOnly = false)
    (hmax : r.size ≤ INT_MAX) (hp : r.pos = QSparql.BeforeFirstRow) (k : Nat)
    (hk : (k : Int) < r.size) :
    next (nextTimes k r) = (true, r.updatePos k) := by
  induction k with
  | zero =>
    simp only [nextTimes]
    exact next_before r hfo (by omega) hp
  | succ k ih =>
    have ih1 := ih (by omega)
    have hst : nextTimes (k + 1) r = r.updatePos k := by
      simp only [nextTimes, ih1]
    rw [hst]
    have := next_row (r.updatePos k) (by simpa using hfo) (by simpa using hmax)
      (by simp) (by simp; omega)
    simpa using this

theorem setPos_frame (r : QSparqlResult) (p : Int) :
    r.setPos p = (false, r) ∨ r.setPos p = (true, r.updatePos p) := by
  simp only [setPos]
  split_ifs
  · exact Or.inl rfl
  · exact Or.inl rfl
  · exact Or.inr rfl

theorem last_frame (r : QSparqlResult) :
    r.last = (false, r) ∨ ∃ i, r.last = (true, r.updatePos i) := by
  simp only [last]
  split_ifs
  · exact Or.inl rfl
  · exact Or.inl rfl
  · rcases setPos_frame r (wrapInt (r.size - 1)) with h | h
    · exact Or.inl h
    · exact Or.inr ⟨_, h⟩

theorem first_frame (r : QSparqlResult) :
    r.first = (false, r) ∨ r.first = (true, r.updatePos 0) := by
  unfold first firstWith
  split_ifs with h0 hf hb
  · exact Or.inr (by rw [updatePos_self r 0 h0])
  · left
    simp [next, hf, nextOnForwardOnly]
  · exact Or.inl rfl
  · exact setPos_frame r 0

theorem next_frame (r : QSparqlResult) :
    r.next = (false, r) ∨ r.next = (false, r.updatePos QSparql.AfterLastRow) ∨
      ∃ i, r.next = (true, r.updatePos i) := by
  rw [next_unfold]
  split_ifs
  · exact Or.inl rfl
  · exact Or.inl rfl
  · exact Or.inr (Or.inl rfl)
  · rcases first_frame r with h | h
    · exact Or.inl h
    · exact Or.inr (Or.inr ⟨_, h⟩)
  · exact Or.inl rfl
  · rcases setPos_frame r (wrapInt (r.pos + 1)) with h | h
    · exact Or.inl h
    · exact Or.inr (Or.inr ⟨_, h⟩)
  · exact Or.inr (Or.inl rfl)

theorem previous_frame (r : QSparqlResult) :
    r.previous = (false, r) ∨ r.previous = (false, r.updatePos QSparql.BeforeFirstRow) ∨
      ∃ i, r.previous = (true, r.updatePos i) := by
  unfold previous
  split_ifs
  · exact Or.inl rfl
  · exact Or.inl rfl
  · exact Or.inr (Or.inl rfl)
  · rcases last_frame r with h | ⟨i, h⟩
    · exact Or.inl h
    · exact Or.inr (Or.inr ⟨i, h⟩)
  · exact Or.inr (Or.inl rfl)
  · rcases setPos_frame r (wrapInt (r.pos - 1)) with h | h
    · exact Or.inl h
    · exact Or.inr (Or.inr ⟨_, h⟩)

/-- A navigation call writes nothing but the position. -/
theorem run_frame (c : NavCall) (r : QSparqlResult) :
    ∃ i, (c.run r).2 = r.updatePos i := by
  have hself : r = r.updatePos r.pos := (updatePos_self r r.pos rfl).symm
  cases c with
  | next =>
    rcases next_frame r with h | h | ⟨i, h⟩
    · exact ⟨r.pos, by simp only [NavCall.run, h]; exact hself⟩
    · exact ⟨QSparql.AfterLastRow, by simp only [NavCall.run, h]⟩
    · exact ⟨i, by simp only [NavCall.run, h]⟩
  | previous =>
    rcases previous_frame r with h | h | ⟨i, h⟩
    · exact ⟨r.pos, by simp only [NavCall.run, h]; exact hself⟩
    · exact ⟨QSparql.BeforeFirstRow, by simp only [NavCall.run, h]⟩
    · exact ⟨i, by simp only [NavCall.run, h]⟩
  | first =>
    rcases first_frame r with h | h
    · exact ⟨r.pos, by simp only [NavCall.run, h]; exact hself⟩
    · exact ⟨0, by simp only [NavCall.run, h]⟩
  | last =>
    rcases last_frame r with h | ⟨i, h⟩
    · exact ⟨r.pos, by simp only [NavCall.run, h]; exact hself⟩
    · exact ⟨i, by simp only [NavCall.run, h]⟩
  | setPos p =>
    rcases setPos_frame r p with h | h
    · exact ⟨r.pos, by simp only [NavCall.run, h]; exact hself⟩
    · exact ⟨p, by simp only [NavCall.run, h]⟩

/-- A sequence of navigation calls writes nothing but the position. -/
theorem navigate_frame (cs : List NavCall) (r : QSparqlResult) :
    ∃ i, navigate cs r = r.updatePos i := by
  induction cs generalizing r with
  | nil => exact ⟨r.pos, (updatePos_self r r.pos rfl).symm⟩
  | cons c cs ih =>
    obtain ⟨i, hi⟩ := run_frame c r
    obtain ⟨j, hj⟩ := ih (c.run r).2
    rw [hi] at hj
    exact ⟨j, by simp only [navigate, hi, hj, updatePos_updatePos]⟩

theorem setPos_cases (r : QSparqlResult) (p : Int)
    (hfo : r.hasFeature Feature.ForwardOnly = false) :
    r.setPos p = (false, r) ∨
      (r.setPos p = (true, r.updatePos p) ∧ 0 ≤ p ∧ (r.size < 0 ∨ p < r.size)) := by
  by_cases h : (p < 0 || (r.size >= 0 && p >= r.size)) = true
  · left
    simp [setPos, hfo, h]
  · right
    have hsp : r.setPos p = (true, r.updatePos p) := by
      simp only [setPos, hfo, h]
      rfl
    simp at h
    exact ⟨hsp, by omega, by omega⟩

@[simp]
theorem updatePos_v (r : QSparqlResult) (i : Int) : (r.updatePos i).v = r.v := rfl

theorem posInRange_updatePos (n : Int) (r : QSparqlResult) (i : Int)
    (h : i = QSparql.BeforeFirstRow ∨ i = QSparql.AfterLastRow ∨ (0 ≤ i ∧ i < n)) :
    PosInRange n (r.updatePos i) := by
  unfold PosInRange
  simpa using h

/-- On a result that is not ForwardOnly and has a known size, a navigation call
made on a sentinel or a row of the result ends on a sentinel or a row of the
result. -/
theorem run_posInRange (c : NavCall) (r : QSparqlResult)
    (hfo : r.hasFeature Feature.ForwardOnly = false)
    (hs : 0 ≤ r.size) (hmax : r.size ≤ INT_MAX) (h : PosInRange r.size r) :
    PosInRange r.size (c.run r).2 := by
  cases c with
  | next =>
    simp only [NavCall.run]
    rcases h with hp | hp | ⟨h0, h1⟩
    · by_cases hz : r.size = 0
      · rw [next_before_empty r hfo hz hp]
        exact posInRange_updatePos _ _ _ (Or.inr (Or.inl rfl))
      · rw [next_before r hfo (by omega) hp]
        exact posInRange_updatePos _ _ _ (Or.inr (Or.inr ⟨le_refl 0, by omega⟩))
    · rw [next_after r hp]
      exact Or.inr (Or.inl hp)
    · by_cases hlt : r.pos + 1 < r.size
      · rw [next_row r hfo hmax h0 hlt]
        exact posInRange_updatePos _ _ _ (Or.inr (Or.inr ⟨by omega, hlt⟩))
      · rw [next_lastRow r hfo hs h0 (by omega) (by omega)]
        exact posInRange_updatePos _ _ _ (Or.inr (Or.inl rfl))
  | previous =>
    simp only [NavCall.run]
    rcases h with hp | hp | ⟨h0, h1⟩
    · rw [previous_before r hp]
      exact Or.inl hp
    · by_cases hz : r.size = 0
      · rw [previous_after_empty r hfo hz hp]
        exact posInRange_updatePos _ _ _ (Or.inl rfl)
      · rw [previous_after r hfo (by omega) hmax hp]
        exact posInRange_updatePos _ _ _ (Or.inr (Or.inr ⟨by omega, by omega⟩))
    · by_cases hz : r.pos = 0
      · rw [previous_zero r hfo hz]
        exact posInRange_updatePos _ _ _ (Or.inl rfl)
      · rw [previous_row r hfo (by omega) (by omega) (Or.inr (by omega))]
        exact posInRange_updatePos _ _ _ (Or.inr (Or.inr ⟨by omega, by omega⟩))
  | first =>
    simp only [NavCall.run]
    by_cases hz : r.pos = 0
    · have hf : first r = (true, r) := by simp [first, firstWith, hz]
      rw [hf]
      exact h
    · have hf : first r = r.setPos 0 := by simp [first, firstWith, hz, hfo]
      rw [hf]
      rcases setPos_cases r 0 hfo with h1 | ⟨h1, h2, h3⟩
      · rw [h1]
        exact h
      · rw [h1]
        exact posInRange_updatePos _ _ _ (Or.inr (Or.inr ⟨h2, by omega⟩))
  | last =>
    simp only [NavCall.run]
    by_cases hz : r.size = 0
    · rw [last_empty r hz]
      exact h
    · rw [last_nonempty r hfo (by omega) hmax]
      exact posInRange_updatePos _ _ _ (Or.inr (Or.inr ⟨by omega, by omega⟩))
  | setPos p =>
    simp only [NavCall.run]
    rcases setPos_cases r p hfo with h1 | ⟨h1, h2, h3⟩
    · rw [h1]
      exact h
    · rw [h1]
      exact posInRange_updatePos _ _ _ (Or.inr (Or.inr ⟨h2, by omega⟩))

/-- The same for a sequence of navigation calls. -/
theorem navigate_posInRange (cs : List NavCall) (r : QSparqlResult)
    (hfo : r.hasFeature Feature.ForwardOnly = false)
    (hs : 0 ≤ r.size) (hmax : r.size ≤ INT_MAX) (h : PosInRange r.size r) :
    PosInRange r.size (navigate cs r) := by
  induction cs generalizing r with
  | nil => exact h
  | cons c cs ih =>
    obtain ⟨i, hi⟩ := run_frame c r
    have hstep := run_posInRange c r hfo hs hmax h
    have hsz : (c.run r).2.size = r.size := by rw [hi]; rfl
    have hfo2 : (c.run r).2.hasFeature Feature.ForwardOnly = false := by
      rw [hi]; simpa using hfo
    have := ih (c.run r).2 hfo2 (by rw [hsz]; exact hs) (by rw [hsz]; exact hmax)
      (by rw [hsz]; exact hstep)
    rw [hsz] at this
    simpa only [navigate] using this

/-- The first `k + 1` calls of `previous()` on a result of more than `k` rows
that starts after the last row: the last of them returns true and stands on
row `size() - 1 - k`. -/
theorem previous_previousTimes (r : QSparqlResult)
    (hfo : r.hasFeature Feature.ForwardOnly = false)
    (hmax : r.size ≤ INT_MAX) (hp : r.pos = QSparql.AfterLastRow) (k : Nat)
    (hk : (k : Int) < r.size) :
    previous (previousTimes k r) = (true, r.updatePos (r.size - 1 - k)) := by
  induction k with
  | zero =>
    simp only [previousTimes]
    have := previous_after r hfo (by omega) hmax hp
    simpa using this
  | succ k ih =>
    have ih1 := ih (by omega)
    have hst : previousTimes (k + 1) r = r.updatePos (r.size - 1 - k) := by
      simp only [previousTimes, ih1]
    rw [hst]
    have := previous_row (r.updatePos (r.size - 1 - k)) (by simpa using hfo)
      (by simp; omega) (by simp; omega) (Or.inr (by simp; omega))
    rw [this]
    simp only [updatePos_updatePos, updatePos_pos]
    congr 2
    push_cast
    omega

theorem onReadableRow_updatePos (r : QSparqlResult) (p : Int) (h0 : 0 ≤ p)
    (h1 : 0 ≤ r.size → p < r.size) : OnReadableRow (r.updatePos p) := by
  have e1 : ¬ p = QSparql.BeforeFirstRow := by unfold QSparql.BeforeFirstRow; omega
  have e2 : ¬ p = QSparql.AfterLastRow := by unfold QSparql.AfterLastRow; omega
  refine ⟨?_, ?_, ?_⟩
  · simp [isValid, updatePos, e1, e2]
  · simpa using h0
  · simpa using h1

/-- A `setPos(p)` that returns true has moved to `p`, a readable row. -/
theorem setPos_true (r : QSparqlResult) (p : Int) (h : (r.setPos p).1 = true) :
    OnReadableRow (r.setPos p).2 := by
  by_cases hf : r.hasFeature Feature.ForwardOnly = true
  · simp [setPos, hf] at h
  · rcases setPos_cases r p (by simpa using hf) with h1 | ⟨h1, h2, h3⟩
    · rw [h1] at h; simp at h
    · rw [h1]
      exact onReadableRow_updatePos r p h2 (by intro hs; omega)

theorem last_true (r : QSparqlResult) (h : (last r).1 = true) :
    OnReadableRow (last r).2 := by
  by_cases hf : r.hasFeature Feature.ForwardOnly = true
  · simp [last, hf] at h
  · by_cases hs : r.size < 0
    · simp [last, hs] at h
    · have hl : last r = r.setPos (wrapInt (r.size - 1)) := by simp [last, hf, hs]
      rw [hl] at h ⊢
      exact setPos_true r _ h

theorem first_true_of_pos_ne_zero (r : QSparqlResult) (h0 : r.pos ≠ 0)
    (h : (first r).1 = true) : OnReadableRow (first r).2 := by
  by_cases hf : r.hasFeature Feature.ForwardOnly = true
  · by_cases hb : r.pos = QSparql.BeforeFirstRow
    · have hne : ¬ QSparql.BeforeFirstRow = 0 := by decide
      simp [first, firstWith, hf, hb, hne, next, nextOnForwardOnly] at h
    · simp [first, firstWith, h0, hf, hb] at h
  · have hfw : first r = r.setPos 0 := by simp [first, firstWith, h0, hf]
    rw [hfw] at h ⊢
    exact setPos_true r 0 h

theorem next_cases (r : QSparqlResult) :
    (next r).1 = false ∨ (r.pos = QSparql.BeforeFirstRow ∧ next r = first r) ∨
      next r = r.setPos (wrapInt (r.pos + 1)) := by
  rw [next_unfold]
  split_ifs with h1 h2 h3 h4 h5 h6
  · exact Or.inl rfl
  · exact Or.inl rfl
  · exact Or.inl rfl
  · exact Or.inr (Or.inl ⟨h3, rfl⟩)
  · exact Or.inl rfl
  · exact Or.inr (Or.inr rfl)
  · exact Or.inl rfl

theorem previous_cases (r : QSparqlResult) :
    (previous r).1 = false ∨ previous r = last r ∨
      previous r = r.setPos (wrapInt (r.pos - 1)) := by
  unfold previous
  split_ifs
  · exact Or.inl rfl
  · exact Or.inl rfl
  · exact Or.inl rfl
  · exact Or.inr (Or.inl rfl)
  · exact Or.inl rfl
  · exact Or.inr (Or.inr rfl)

theorem next_true (r : QSparqlResult) (h : (next r).1 = true) :
    OnReadableRow (next r).2 := by
  rcases next_cases r with h1 | ⟨hb, h1⟩ | h1
  · rw [h1] at h; simp at h
  · rw [h1] at h ⊢
    exact first_true_of_pos_ne_zero r (by rw [hb]; decide) h
  · rw [h1] at h ⊢
    exact setPos_true r _ h

theorem previous_true (r : QSparqlResult) (h : (previous r).1 = true) :
    OnReadableRow (previous r).2 := by
  rcases previous_cases r with h1 | h1 | h1
  · rw [h1] at h; simp at h
  · rw [h1] at h ⊢
    exact last_true r h
  · rw [h1] at h ⊢
    exact setPos_true r _ h

theorem setPos_of_size_zero (r : QSparqlResult) (p : Int) (hz : r.size = 0) :
    r.setPos p = (false, r) := by
  by_cases hp : p < 0
  · simp [setPos, hz, hp]
  · have hp2 : 0 ≤ p := by omega
    simp [setPos, hz, hp2]

/-- On a result that is not ForwardOnly `first()` never reaches its call of
`next()`. -/
theorem firstWith_of_not_forwardOnly (vnext : QSparqlResult → Bool × QSparqlResult)
    (r : QSparqlResult) (hfo : r.hasFeature Feature.ForwardOnly = false) :
    firstWith vnext r = first r := by
  by_cases h0 : r.pos = 0
  · simp [first, firstWith, h0]
  · simp [first, firstWith, h0, hfo]

/-- On a ForwardOnly result `previous()` returns false and changes nothing. -/
theorem previous_of_forwardOnly (r : QSparqlResult)
    (hfo : r.hasFeature Feature.ForwardOnly = true) : previous r = (false, r) := by
  simp [previous, hfo]

/-- On a ForwardOnly result `first()` leaves the result as it was or as the
`next()` of the class (`vnext`) leaves it. -/
theorem firstWith_of_forwardOnly (vnext : QSparqlResult → Bool × QSparqlResult)
    (r : QSparqlResult) (hfo : r.hasFeature Feature.ForwardOnly = true) :
    (firstWith vnext r).2 = r ∨
      (r.pos = QSparql.BeforeFirstRow ∧ firstWith vnext r = vnext r) := by
  by_cases h0 : r.pos = 0
  · left
    simp [firstWith, h0]
  · by_cases hb : r.pos = QSparql.BeforeFirstRow
    · right
      have hne : ¬ QSparql.BeforeFirstRow = 0 := by decide
      exact ⟨hb, by simp [firstWith, hfo, hb, hne]⟩
    · left
      simp [firstWith, h0, hfo, hb]

/-- After `first()`, `previous()` returns false, in every state. -/
theorem previous_after_first_false (r : QSparqlResult) :
    (previous (first r).2).1 = false := by
  by_cases hfo : r.hasFeature Feature.ForwardOnly = true
  · obtain ⟨i, hi⟩ := run_frame NavCall.first r
    simp only [NavCall.run] at hi
    rw [hi, previous_of_forwardOnly (r.updatePos i) (by simpa using hfo)]
  · have hfo2 : r.hasFeature Feature.ForwardOnly = false := by simpa using hfo
    by_cases h0 : r.pos = 0
    · have hf : first r = (true, r) := by simp [first, firstWith, h0]
      rw [hf, previous_zero r hfo2 h0]
    · have hf : first r = r.setPos 0 := by simp [first, firstWith, h0, hfo2]
      rw [hf]
      by_cases hz : r.size = 0
      · rw [setPos_of_size_zero r 0 hz]
        rcases previous_cases r with h1 | h1 | h1
        · exact h1
        · rw [h1, last_empty r hz]
        · rw [h1, setPos_of_size_zero r _ hz]
      · have hsp : r.setPos 0 = (true, r.updatePos 0) := by
          have h1 : ¬ (0 ≤ r.size ∧ r.size ≤ 0) := by omega
          simp [setPos, hfo2, h1, updatePos]
        rw [hsp, previous_zero (r.updatePos 0) (by simpa using hfo2) (by simp)]

end QSparqlResult

/-! The claims. -/

open QSparqlResult

/-- C2: on a result that is not ForwardOnly, in every state and for every
integer `p`, `setPos(p)` returns true iff `0 <= p` and (`size()` is negative
or `p < size()`); when it returns true `pos()` is `p` afterwards, and when it
returns false `pos()` is unchanged. -/
theorem setPos_true_iff (r : QSparqlResult) (p : Int)
    (hfo : r.hasFeature Feature.ForwardOnly = false) :
    ((r.setPos p).1 = true ↔ (0 ≤ p ∧ (r.size < 0 ∨ p < r.size))) ∧
    ((r.setPos p).1 = true → (r.setPos p).2.pos = p) ∧
    ((r.setPos p).1 = false → (r.setPos p).2.pos = r.pos) := by
  unfold setPos
  simp only [hfo]
  by_cases hc : (p < 0 || (r.size >= 0 && p >= r.size)) = true
  · simp only [hc]
    simp at hc
    refine ⟨?_, ?_, ?_⟩
    · constructor
      · intro h; simp at h
      · rintro ⟨h1, h2⟩; exfalso; omega
    · intro h; simp at h
    · intro _; simp
  · simp only [hc]
    simp at hc
    refine ⟨?_, ?_, ?_⟩
    · constructor
      · intro _; omega
      · intro _; simp
    · intro _; simp [pos]
    · intro h; simp at h

/-- Witness of C2: a result of three rows standing at row 0 is moved to row 2
by `setPos(2)`. -/
theorem setPos_true_iff_witness :
    (((QSparqlResult.new { Virtuals.base with size := 3 }).setPos 2).1 = true ↔
        ((0 : Int) ≤ 2 ∧ ((QSparqlResult.new { Virtuals.base with size := 3 }).size < 0
          ∨ 2 < (QSparqlResult.new { Virtuals.base with size := 3 }).size))) ∧
    (((QSparqlResult.new { Virtuals.base with size := 3 }).setPos 2).1 = true →
      ((QSparqlResult.new { Virtuals.base with size := 3 }).setPos 2).2.pos = 2) ∧
    (((QSparqlResult.new { Virtuals.base with size := 3 }).setPos 2).1 = false →
      ((QSparqlResult.new { Virtuals.base with size := 3 }).setPos 2).2.pos
        = (QSparqlResult.new { Virtuals.base with size := 3 }).pos) :=
  setPos_true_iff (QSparqlResult.new { Virtuals.base with size := 3 }) 2 (by decide)

/-- C3: on a result that advertises ForwardOnly, in every state and for every
argument `p`, `setPos(p)`, `previous()` and `last()` each return false and
leave the whole object (position, query, statement type, bool value, error)
as it was. -/
theorem forwardOnly_setPos_previous_last (r : QSparqlResult) (p : Int)
    (hfo : r.hasFeature Feature.ForwardOnly = true) :
    r.setPos p = (false, r) ∧ r.previous = (false, r) ∧ r.last = (false, r) := by
  refine ⟨?_, ?_, ?_⟩
  · simp [setPos, hfo]
  · simp [previous, hfo]
  · simp [last, hfo]

/-- Witness of C3: a forward-only result of two rows, standing at row 1. -/
theorem forwardOnly_setPos_previous_last_witness :
    ((QSparqlResult.new { Virtuals.base with forwardOnly := true, size := 2 }).updatePos 1).setPos 0
        = (false, (QSparqlResult.new { Virtuals.base with forwardOnly := true, size := 2 }).updatePos 1) ∧
    ((QSparqlResult.new { Virtuals.base with forwardOnly := true, size := 2 }).updatePos 1).previous
        = (false, (QSparqlResult.new { Virtuals.base with forwardOnly := true, size := 2 }).updatePos 1) ∧
    ((QSparqlResult.new { Virtuals.base with forwardOnly := true, size := 2 }).updatePos 1).last
        = (false, (QSparqlResult.new { Virtuals.base with forwardOnly := true, size := 2 }).updatePos 1) :=
  forwardOnly_setPos_previous_last
    ((QSparqlResult.new { Virtuals.base with forwardOnly := true, size := 2 }).updatePos 1) 0
    (by decide)

/-- C4: in every state `hasError()` equals (`isFinished()` and the kind of the
stored error is not `NoError`); in particular it is false on an unfinished
result whatever error `setLastError` has stored. -/
theorem hasError_eq (r : QSparqlResult) :
    r.hasError = (r.isFinished && decide (r.d.error.type ≠ QSparqlError.ErrorType.NoError)) ∧
    ∀ e : QSparqlError, r.isFinished = false → (r.setLastError e).hasError = false := by
  constructor
  · by_cases h : r.d.error.type = QSparqlError.ErrorType.NoError <;>
      simp [hasError, QSparqlError.isValid, h]
  · intro e h
    simp only [isFinished] at h
    simp [hasError, setLastError, isFinished, h]

/-- Witness of C4: an unfinished result that stores a `StatementError` reports
no error. -/
theorem hasError_eq_witness :
    ((QSparqlResult.new Virtuals.base).setLastError
      { type := QSparqlError.ErrorType.StatementError, message := "x" }).hasError = false :=
  (hasError_eq (QSparqlResult.new Virtuals.base)).2
    { type := QSparqlError.ErrorType.StatementError, message := "x" } rfl

/-- C5: after `setLastError(e)`, `lastError()` returns exactly `e` when
`isFinished()` is true; when `isFinished()` is false it returns the default
`NoError` error, which is not `e` unless `e` is that default itself; and in
every state `hasError()` equals `lastError().isValid()`. -/
theorem lastError_after_setLastError (r : QSparqlResult) (e : QSparqlError) :
    (r.isFinished = true → (r.setLastError e).lastError = e) ∧
    (r.isFinished = false →
      (r.setLastError e).lastError = QSparqlError.new ∧
      (r.setLastError e).lastError.type = QSparqlError.ErrorType.NoError ∧
      (e ≠ QSparqlError.new → (r.setLastError e).lastError ≠ e)) ∧
    r.hasError = r.lastError.isValid := by
  refine ⟨?_, ?_, ?_⟩
  · intro h
    simp only [isFinished] at h
    simp [lastError, setLastError, isFinished, h]
  · intro h
    simp only [isFinished] at h
    have h1 : (r.setLastError e).lastError = QSparqlError.new := by
      simp [lastError, setLastError, isFinished, h]
    refine ⟨h1, ?_, ?_⟩
    · rw [h1]; rfl
    · intro hne; rw [h1]; exact fun hc => hne hc.symm
  · cases hf : r.v.isFinished <;>
      simp [hasError, lastError, isFinished, hf, QSparqlError.isValid, QSparqlError.new]

/-- Witness of C5: a finished and an unfinished result that both store a
`BackendError`. -/
theorem lastError_after_setLastError_witness :
    (((QSparqlResult.new { Virtuals.base with isFinished := true }).setLastError
        { type := QSparqlError.ErrorType.BackendError, message := "x" }).lastError
      = { type := QSparqlError.ErrorType.BackendError, message := "x" }) ∧
    (((QSparqlResult.new Virtuals.base).setLastError
        { type := QSparqlError.ErrorType.BackendError, message := "x" }).lastError
      = QSparqlError.new) :=
  ⟨(lastError_after_setLastError (QSparqlResult.new { Virtuals.base with isFinished := true })
      { type := QSparqlError.ErrorType.BackendError, message := "x" }).1 rfl,
   ((lastError_after_setLastError (QSparqlResult.new Virtuals.base)
      { type := QSparqlError.ErrorType.BackendError, message := "x" }).2.1 rfl).1⟩

/-- C1: on a result that is not ForwardOnly, of constant size `n >= 0`, that
starts at BeforeFirstRow, the `k`-th call of `next()` (`1 <= k <= n`) returns
true and leaves `pos() == k - 1`, and the `(n+1)`-th call returns false and
leaves `pos() == AfterLastRow`; for `n = 0` that is the first call. -/
theorem next_visits_rows_in_order (r : QSparqlResult) (n : Nat)
    (hfo : r.hasFeature Feature.ForwardOnly = false)
    (hsize : r.size = n) (hmax : (n : Int) ≤ INT_MAX)
    (hp : r.pos = QSparql.BeforeFirstRow) :
    (∀ k : Nat, 1 ≤ k → k ≤ n →
      (next (nextTimes (k - 1) r)).1 = true ∧ (nextTimes k r).pos = (k : Int) - 1) ∧
    (next (nextTimes n r)).1 = false ∧
    (nextTimes (n + 1) r).pos = QSparql.AfterLastRow := by
  have hmax2 : r.size ≤ INT_MAX := by rw [hsize]; exact hmax
  have hlast : next (nextTimes n r) = (false, r.updatePos QSparql.AfterLastRow) := by
    cases n with
    | zero =>
      simp only [nextTimes]
      exact next_before_empty r hfo (by simpa using hsize) hp
    | succ m =>
      have h1 := next_nextTimes r hfo hmax2 hp m (by rw [hsize]; push_cast; omega)
      have hst : nextTimes (m + 1) r = r.updatePos m := by
        simp only [nextTimes, h1]
      rw [hst]
      have := next_lastRow (r.updatePos m) (by simpa using hfo)
        (by simp [hsize]; omega)
        (by simp) (by simp; rw [hsize] at hmax2; push_cast at hmax2; omega)
        (by simp [hsize])
      simpa using this
  refine ⟨?_, ?_, ?_⟩
  · intro k hk1 hk2
    obtain ⟨j, rfl⟩ : ∃ j, k = j + 1 := ⟨k - 1, by omega⟩
    have h1 := next_nextTimes r hfo hmax2 hp j (by rw [hsize]; omega)
    constructor
    · simp [h1]
    · simp only [nextTimes, h1]
      simp
  · rw [hlast]
  · simp only [nextTimes, hlast]
    simp

/-- Witness of C1: a result of three rows; the second call of `next()` returns
true at row 1, the fourth returns false after the last row. -/
theorem next_visits_rows_in_order_witness :
    ((next (nextTimes 1 (QSparqlResult.new { Virtuals.base with size := 3 }))).1 = true ∧
      (nextTimes 2 (QSparqlResult.new { Virtuals.base with size := 3 })).pos = 1) ∧
    (next (nextTimes 3 (QSparqlResult.new { Virtuals.base with size := 3 }))).1 = false ∧
    (nextTimes 4 (QSparqlResult.new { Virtuals.base with size := 3 })).pos
      = QSparql.AfterLastRow :=
  have h := next_visits_rows_in_order (QSparqlResult.new { Virtuals.base with size := 3 }) 3
    (by decide) (by decide) (by decide) (by decide)
  ⟨h.1 2 (by decide) (by decide), h.2.1, h.2.2⟩

/-- C6, as stated, fails: the result class of the source itself (not
ForwardOnly, `size()` returning -1) standing before the first row answers
false to `next()` and stays before the first row. -/
theorem next_false_not_afterLast_counterexample :
    ¬ (∀ r : QSparqlResult, r.hasFeature Feature.ForwardOnly = false →
        ((next r).1 = true ↔ (next r).2.isValid = true) ∧
        ((next r).1 = false → (next r).2.pos = QSparql.AfterLastRow)) := by
  intro h
  have h1 := (h (QSparqlResult.new Virtuals.base) (by decide)).2 (by decide)
  revert h1
  decide

/-- C6, amended: on a result that is not ForwardOnly, whose `size()` is known
(`n >= 0`) and whose position is BeforeFirstRow, AfterLastRow or a
non-negative index below `INT_MAX`, `next()` returns true iff the position
after the call is a valid row, and whenever it returns false the result is
positioned at AfterLastRow afterwards. -/
theorem next_true_iff_valid (r : QSparqlResult)
    (hfo : r.hasFeature Feature.ForwardOnly = false)
    (hs : 0 ≤ r.size) (hmax : r.size ≤ INT_MAX)
    (hp : r.pos = QSparql.BeforeFirstRow ∨ r.pos = QSparql.AfterLastRow ∨
      (0 ≤ r.pos ∧ r.pos < INT_MAX)) :
    ((next r).1 = true ↔ (next r).2.isValid = true) ∧
    ((next r).1 = false → (next r).2.pos = QSparql.AfterLastRow) := by
  rcases hp with hp | hp | ⟨h0, h1⟩
  · by_cases hz : r.size = 0
    · rw [next_before_empty r hfo hz hp]
      simp [isValid, updatePos, pos]
    · rw [next_before r hfo (by omega) hp]
      simp [isValid, updatePos]
      decide
  · rw [next_after r hp]
    simp only [pos] at hp
    simp [isValid, hp, pos]
  · by_cases hlt : r.pos + 1 < r.size
    · rw [next_row r hfo hmax h0 hlt]
      have e1 : ¬ r.pos + 1 = QSparql.BeforeFirstRow := by
        unfold QSparql.BeforeFirstRow; omega
      have e2 : ¬ r.pos + 1 = QSparql.AfterLastRow := by
        unfold QSparql.AfterLastRow; omega
      simp [isValid, updatePos, e1, e2]
    · rw [next_lastRow r hfo hs h0 h1 (by omega)]
      simp [isValid, updatePos, pos]

/-- Witness of C6 amended: a result of three rows standing on its last row. -/
theorem next_true_iff_valid_witness :
    ((next ((QSparqlResult.new { Virtuals.base with size := 3 }).updatePos 2)).1 = true ↔
      (next ((QSparqlResult.new { Virtuals.base with size := 3 }).updatePos 2)).2.isValid
        = true) ∧
    ((next ((QSparqlResult.new { Virtuals.base with size := 3 }).updatePos 2)).1 = false →
      (next ((QSparqlResult.new { Virtuals.base with size := 3 }).updatePos 2)).2.pos
        = QSparql.AfterLastRow) :=
  next_true_iff_valid ((QSparqlResult.new { Virtuals.base with size := 3 }).updatePos 2)
    (by decide) (by decide) (by decide) (Or.inr (Or.inr (by decide)))

/-- C7: on a result that is not ForwardOnly, of known size `n >= 0` (any size
an `int` holds will do), standing on a sentinel or on a row in `[0, n)`:
`previous()` from AfterLastRow moves to
row `n - 1` and returns true when `n > 0`, and moves to BeforeFirstRow and
returns false when `n == 0`; from row 0 it moves to BeforeFirstRow and returns
false; from a row `i > 0` it moves to row `i - 1` and returns true; from
BeforeFirstRow it stays and returns false. -/
theorem previous_transitions (r : QSparqlResult)
    (hfo : r.hasFeature Feature.ForwardOnly = false) (hmax : r.size ≤ INT_MAX) :
    (r.pos = QSparql.AfterLastRow → 0 < r.size →
      previous r = (true, r.updatePos (r.size - 1))) ∧
    (r.pos = QSparql.AfterLastRow → r.size = 0 →
      previous r = (false, r.updatePos QSparql.BeforeFirstRow)) ∧
    (r.pos = 0 → previous r = (false, r.updatePos QSparql.BeforeFirstRow)) ∧
    (0 < r.pos → r.pos < r.size → previous r = (true, r.updatePos (r.pos - 1))) ∧
    (r.pos = QSparql.BeforeFirstRow → previous r = (false, r)) := by
  refine ⟨?_, ?_, ?_, ?_, ?_⟩
  · intro hp hn
    exact previous_after r hfo hn hmax hp
  · intro hp hn
    exact previous_after_empty r hfo hn hp
  · intro hp
    exact previous_zero r hfo hp
  · intro h0 h1
    exact previous_row r hfo h0 (by omega) (Or.inr (by omega))
  · intro hp
    exact previous_before r hp

/-- Witness of C7: a result of three rows; after four calls of `next()`,
`previous()` returns true and `pos()` is 2. -/
theorem previous_transitions_witness :
    (previous (nextTimes 4 (QSparqlResult.new { Virtuals.base with size := 3 }))).1 = true ∧
    (previous (nextTimes 4 (QSparqlResult.new { Virtuals.base with size := 3 }))).2.pos = 2 :=
  have h := (previous_transitions
    (nextTimes 4 (QSparqlResult.new { Virtuals.base with size := 3 }))
    (by decide) (by decide)).1 (by decide) (by decide)
  ⟨by rw [h], by rw [h]; decide⟩

/-- C8: on a result that is not ForwardOnly, of known size `n >= 0`, standing
on a sentinel or on a row in `[0, n)`: after `last()`, the call `next()`
returns false and `pos()` is AfterLastRow afterwards. -/
theorem last_then_next (r : QSparqlResult)
    (hfo : r.hasFeature Feature.ForwardOnly = false)
    (hs : 0 ≤ r.size) (hmax : r.size ≤ INT_MAX)
    (hp : r.pos = QSparql.BeforeFirstRow ∨ r.pos = QSparql.AfterLastRow ∨
      (0 ≤ r.pos ∧ r.pos < r.size)) :
    (next (last r).2).1 = false ∧ (next (last r).2).2.pos = QSparql.AfterLastRow := by
  by_cases hz : r.size = 0
  · rw [last_empty r hz]
    rcases hp with hp | hp | ⟨h0, h1⟩
    · rw [next_before_empty r hfo hz hp]
      simp
    · rw [next_after r hp]
      exact ⟨rfl, hp⟩
    · omega
  · rw [last_nonempty r hfo (by omega) hmax]
    have := next_lastRow (r.updatePos (r.size - 1)) (by simpa using hfo) (by simpa using hs)
      (by simp; omega) (by simp; omega) (by simp)
    rw [this]
    simp

/-- Witness of C8: a result of three rows standing on row 0. -/
theorem last_then_next_witness :
    (next (last ((QSparqlResult.new { Virtuals.base with size := 3 }).updatePos 0)).2).1
      = false ∧
    (next (last ((QSparqlResult.new { Virtuals.base with size := 3 }).updatePos 0)).2).2.pos
      = QSparql.AfterLastRow :=
  last_then_next ((QSparqlResult.new { Virtuals.base with size := 3 }).updatePos 0)
    (by decide) (by decide) (by decide) (Or.inr (Or.inr (by decide)))

/-- C9, as stated, fails: on a forward-only result of two rows standing on
row 0, `first()` returns true, the following `previous()` returns false and
`pos()` is still 0, not BeforeFirstRow. -/
theorem first_then_previous_counterexample :
    (first ((QSparqlResult.new
        { Virtuals.base with forwardOnly := true, size := 2 }).updatePos 0)).1 = true ∧
    (previous (first ((QSparqlResult.new
        { Virtuals.base with forwardOnly := true, size := 2 }).updatePos 0)).2).1 = false ∧
    (previous (first ((QSparqlResult.new
        { Virtuals.base with forwardOnly := true, size := 2 }).updatePos 0)).2).2.pos = 0 ∧
    (previous (first ((QSparqlResult.new
        { Virtuals.base with forwardOnly := true, size := 2 }).updatePos 0)).2).2.pos
      ≠ QSparql.BeforeFirstRow := by
  decide

/-- C9, amended: for every result (any delivery mode, any size, any starting
position), after `first()` the call `previous()` returns false; this holds
also for a ForwardOnly class with a `next()` of its own (`vnext`) that leaves
the result ForwardOnly.  Afterwards `pos()` is BeforeFirstRow when the result
is not ForwardOnly and its `size()` is not 0 or its position was
BeforeFirstRow, AfterLastRow or 0; on a result that is not ForwardOnly, of
size 0 and started elsewhere, `pos()` is unchanged; on a ForwardOnly result
`previous()` leaves the result where `first()` left it. -/
theorem first_then_previous (r : QSparqlResult)
    (vnext : QSparqlResult → Bool × QSparqlResult) :
    (previous (first r).2).1 = false ∧
    ((r.hasFeature Feature.ForwardOnly = true →
        (vnext r).2.hasFeature Feature.ForwardOnly = true) →
      (previous (firstWith vnext r).2).1 = false) ∧
    (r.hasFeature Feature.ForwardOnly = false →
      (r.size ≠ 0 ∨ r.pos = QSparql.BeforeFirstRow ∨ r.pos = QSparql.AfterLastRow ∨
        r.pos = 0) →
      (previous (first r).2).2.pos = QSparql.BeforeFirstRow) ∧
    (r.hasFeature Feature.ForwardOnly = false → r.size = 0 →
      r.pos ≠ QSparql.BeforeFirstRow → r.pos ≠ QSparql.AfterLastRow → r.pos ≠ 0 →
      (previous (first r).2).2.pos = r.pos) ∧
    (r.hasFeature Feature.ForwardOnly = true →
      (vnext r).2.hasFeature Feature.ForwardOnly = true →
      previous (firstWith vnext r).2 = (false, (firstWith vnext r).2)) := by
  have hkeep : r.hasFeature Feature.ForwardOnly = true →
      (vnext r).2.hasFeature Feature.ForwardOnly = true →
      (firstWith vnext r).2.hasFeature Feature.ForwardOnly = true := by
    intro hfo hv
    rcases firstWith_of_forwardOnly vnext r hfo with h | ⟨_, h⟩
    · rw [h]; exact hfo
    · rw [h]; exact hv
  refine ⟨previous_after_first_false r, ?_, ?_, ?_, ?_⟩
  · intro hv
    by_cases hfo : r.hasFeature Feature.ForwardOnly = true
    · rw [previous_of_forwardOnly _ (hkeep hfo (hv hfo))]
    · rw [firstWith_of_not_forwardOnly vnext r (by simpa using hfo)]
      exact previous_after_first_false r
  · intro hfo hp
    by_cases h0 : r.pos = 0
    · have hf : first r = (true, r) := by simp [first, firstWith, h0]
      rw [hf, previous_zero r hfo h0]
      simp
    · have hf : first r = r.setPos 0 := by simp [first, firstWith, h0, hfo]
      rw [hf]
      by_cases hz : r.size = 0
      · rw [setPos_of_size_zero r 0 hz]
        rcases hp with hp | hp | hp | hp
        · exact absurd hz hp
        · rw [previous_before r hp]
          exact hp
        · rw [previous_after_empty r hfo hz hp]
          simp
        · exact absurd hp h0
      · have hsp : r.setPos 0 = (true, r.updatePos 0) := by
          have h1 : ¬ (0 ≤ r.size ∧ r.size ≤ 0) := by omega
          simp [setPos, hfo, h1, updatePos]
        rw [hsp, previous_zero (r.updatePos 0) (by simpa using hfo) (by simp)]
        simp
  · intro hfo hz hb ha h0
    have hf : first r = r.setPos 0 := by simp [first, firstWith, h0, hfo]
    rw [hf, setPos_of_size_zero r 0 hz]
    have hprev : previous r = r.setPos (wrapInt (r.pos - 1)) := by
      simp [previous, hfo, hb, ha, h0]
    rw [hprev, setPos_of_size_zero r _ hz]
  · intro hfo hv
    exact previous_of_forwardOnly _ (hkeep hfo hv)

/-- Witness of C9 amended: a result of three rows standing after the last
row. -/
theorem first_then_previous_witness :
    (previous (first ((QSparqlResult.new { Virtuals.base with size := 3 }).updatePos
      QSparql.AfterLastRow)).2).1 = false ∧
    (previous (first ((QSparqlResult.new { Virtuals.base with size := 3 }).updatePos
      QSparql.AfterLastRow)).2).2.pos = QSparql.BeforeFirstRow :=
  have h := first_then_previous
    ((QSparqlResult.new { Virtuals.base with size := 3 }).updatePos QSparql.AfterLastRow) next
  ⟨h.1, h.2.2.1 (by decide) (Or.inl (by decide))⟩

/-- C10: on a result that is not ForwardOnly, `first()` is `setPos(0)` unless
`pos()` is already 0, where it returns true and changes nothing; and in every
state whose position is a sentinel or lies in `[0, size())` (any non-negative
index when the size is unknown) `first()` and `setPos(0)` return the same
value and leave the same state. -/
theorem first_eq_setPos_zero (r : QSparqlResult)
    (hfo : r.hasFeature Feature.ForwardOnly = false) :
    (r.pos ≠ 0 → first r = r.setPos 0) ∧
    (r.pos = 0 → first r = (true, r)) ∧
    ((r.pos = QSparql.BeforeFirstRow ∨ r.pos = QSparql.AfterLastRow ∨
        (0 ≤ r.pos ∧ (r.size < 0 ∨ r.pos < r.size))) →
      first r = r.setPos 0) := by
  have hne : r.pos ≠ 0 → first r = r.setPos 0 := by
    intro h0
    simp [first, firstWith, h0, hfo]
  have hz : r.pos = 0 → first r = (true, r) := by
    intro h0
    simp [first, firstWith, h0]
  refine ⟨hne, hz, ?_⟩
  intro hp
  by_cases h0 : r.pos = 0
  · rw [hz h0]
    have hsz : ¬ (0 ≤ r.size ∧ r.size ≤ 0) := by
      rcases hp with hp | hp | ⟨_, hp⟩
      · rw [h0] at hp; exact absurd hp (by decide)
      · rw [h0] at hp; exact absurd hp (by decide)
      · omega
    have hsp : r.setPos 0 = (true, r.updatePos 0) := by
      simp [setPos, hfo, hsz, updatePos]
    rw [hsp, updatePos_self r 0 h0]
  · exact hne h0

/-- Witness of C10: a result of three rows standing on row 0, where `first()`
and `setPos(0)` both return true and leave the result as it was. -/
theorem first_eq_setPos_zero_witness :
    first ((QSparqlResult.new { Virtuals.base with size := 3 }).updatePos 0)
      = (true, (QSparqlResult.new { Virtuals.base with size := 3 }).updatePos 0) ∧
    first ((QSparqlResult.new { Virtuals.base with size := 3 }).updatePos 0)
      = ((QSparqlResult.new { Virtuals.base with size := 3 }).updatePos 0).setPos 0 :=
  have h := first_eq_setPos_zero
    ((QSparqlResult.new { Virtuals.base with size := 3 }).updatePos 0) (by decide)
  ⟨h.2.1 (by decide), h.2.2 (Or.inr (Or.inr (by decide)))⟩

/-- C11: for every result and every state, `last()` returns the same value
and leaves the same object as `setPos(size() - 1)`; in particular, when
`size()` is negative, `last()` returns false and leaves `pos()` unchanged.
(`size()` is an `int`, hence at most `INT_MAX`.) -/
theorem last_eq_setPos_size_sub_one (r : QSparqlResult) (hmax : r.size ≤ INT_MAX) :
    last r = r.setPos (r.size - 1) ∧
    (r.size < 0 → (last r).1 = false ∧ (last r).2.pos = r.pos) := by
  have hneg : r.size < 0 → last r = (false, r) := by
    intro h
    simp only [last]
    split_ifs <;> rfl
  constructor
  · by_cases hf : r.hasFeature Feature.ForwardOnly = true
    · simp [last, setPos, hf]
    · by_cases hs : r.size < 0
      · rw [hneg hs]
        have h1 : r.size - 1 < 0 := by omega
        simp [setPos, h1]
      · have hw : wrapInt (r.size - 1) = r.size - 1 :=
          wrapInt_of_inRange _ (by unfold INT_MIN; omega) (by omega)
        simp [last, hf, hs, hw]
  · intro h
    rw [hneg h]
    exact ⟨rfl, rfl⟩

/-- Witness of C11: on a result of three rows standing before the first row,
`last()` and `setPos(2)` both return true and move to row 2. -/
theorem last_eq_setPos_size_sub_one_witness :
    last (QSparqlResult.new { Virtuals.base with size := 3 })
      = (QSparqlResult.new { Virtuals.base with size := 3 }).setPos (3 - 1) :=
  (last_eq_setPos_size_sub_one (QSparqlResult.new { Virtuals.base with size := 3 })
    (by decide)).1

/-- C12, as stated, fails: a forward-only result of two rows standing on row 0
is not at BeforeFirstRow, and `first()` returns true there. -/
theorem forwardOnly_first_counterexample :
    ((QSparqlResult.new
        { Virtuals.base with forwardOnly := true, size := 2 }).updatePos 0).hasFeature
          Feature.ForwardOnly = true ∧
    ((QSparqlResult.new
        { Virtuals.base with forwardOnly := true, size := 2 }).updatePos 0).pos
          ≠ QSparql.BeforeFirstRow ∧
    (first ((QSparqlResult.new
        { Virtuals.base with forwardOnly := true, size := 2 }).updatePos 0)).1 = true := by
  decide

/-- C12, amended: on a result that advertises ForwardOnly, whatever `next()`
its class has (`vnext`): at BeforeFirstRow `first()` returns the same value
and leaves the same object as one call of `next()`; at row 0 it returns true
and changes nothing; at every other position it returns false and changes
nothing. -/
theorem forwardOnly_first (vnext : QSparqlResult → Bool × QSparqlResult)
    (r : QSparqlResult) (hfo : r.hasFeature Feature.ForwardOnly = true) :
    (r.pos = QSparql.BeforeFirstRow → firstWith vnext r = vnext r) ∧
    (r.pos = QSparql.BeforeFirstRow → first r = next r) ∧
    (r.pos = 0 → firstWith vnext r = (true, r)) ∧
    (r.pos ≠ QSparql.BeforeFirstRow → r.pos ≠ 0 → firstWith vnext r = (false, r)) := by
  have hb : ∀ w : QSparqlResult → Bool × QSparqlResult,
      r.pos = QSparql.BeforeFirstRow → firstWith w r = w r := by
    intro w hp
    have h0 : ¬ QSparql.BeforeFirstRow = 0 := by decide
    simp [firstWith, h0, hfo, hp]
  refine ⟨hb vnext, ?_, ?_, ?_⟩
  · intro hp
    exact hb next hp
  · intro h0
    simp [firstWith, h0]
  · intro hp h0
    simp [firstWith, h0, hfo, hp]

/-- Witness of C12 amended: a new forward-only result of two rows, where
`first()` is one call of `next()`. -/
theorem forwardOnly_first_witness :
    first (QSparqlResult.new { Virtuals.base with forwardOnly := true, size := 2 })
      = next (QSparqlResult.new { Virtuals.base with forwardOnly := true, size := 2 }) :=
  (forwardOnly_first next
    (QSparqlResult.new { Virtuals.base with forwardOnly := true, size := 2 })
    (by decide)).2.1 (by decide)

/-- C13: for every boolean `v`, after `setStatementType(AskStatement)` and
`setBoolValue(v)`, `isBool()` is true, `isTable()` and `isGraph()` are false
and `boolValue()` returns `v`, whatever navigation calls are made between the
two setters (`cs1`) and between them and the reading (`cs2`). -/
theorem ask_boolValue_roundtrip (r : QSparqlResult) (v : Bool) (cs1 cs2 : List NavCall) :
    (navigate cs2 ((navigate cs1
      (r.setStatementType QSparqlQuery.StatementType.AskStatement)).setBoolValue v)).isBool
        = true ∧
    (navigate cs2 ((navigate cs1
      (r.setStatementType QSparqlQuery.StatementType.AskStatement)).setBoolValue v)).isTable
        = false ∧
    (navigate cs2 ((navigate cs1
      (r.setStatementType QSparqlQuery.StatementType.AskStatement)).setBoolValue v)).isGraph
        = false ∧
    (navigate cs2 ((navigate cs1
      (r.setStatementType QSparqlQuery.StatementType.AskStatement)).setBoolValue v)).boolValue
        = v := by
  obtain ⟨i, hi⟩ := navigate_frame cs1
    (r.setStatementType QSparqlQuery.StatementType.AskStatement)
  rw [hi]
  obtain ⟨j, hj⟩ := navigate_frame cs2
    (((r.setStatementType QSparqlQuery.StatementType.AskStatement).updatePos i).setBoolValue v)
  rw [hj]
  exact ⟨rfl, rfl, rfl, rfl⟩

/-- C14: for every statement type `t` (Select, Construct, Describe, Ask):
`isTable()` is true iff `t` is Select, `isGraph()` is true iff `t` is Construct
or Describe, `isBool()` is true iff `t` is Ask; hence exactly one of the three
is true; and a newly constructed result is a table, of type Select. -/
theorem statementType_decides_shape (r : QSparqlResult) (t : QSparqlQuery.StatementType)
    (v : Virtuals) :
    (r.setStatementType t).statementType = t ∧
    ((r.setStatementType t).isTable = true ↔
      t = QSparqlQuery.StatementType.SelectStatement) ∧
    ((r.setStatementType t).isGraph = true ↔
      (t = QSparqlQuery.StatementType.ConstructStatement ∨
        t = QSparqlQuery.StatementType.DescribeStatement)) ∧
    ((r.setStatementType t).isBool = true ↔ t = QSparqlQuery.StatementType.AskStatement) ∧
    (((r.setStatementType t).isTable = true ∧ (r.setStatementType t).isGraph = false ∧
        (r.setStatementType t).isBool = false) ∨
      ((r.setStatementType t).isTable = false ∧ (r.setStatementType t).isGraph = true ∧
        (r.setStatementType t).isBool = false) ∨
      ((r.setStatementType t).isTable = false ∧ (r.setStatementType t).isGraph = false ∧
        (r.setStatementType t).isBool = true)) ∧
    (QSparqlResult.new v).statementType = QSparqlQuery.StatementType.SelectStatement ∧
    (QSparqlResult.new v).isTable = true := by
  cases t <;>
    simp [setStatementType, statementType, isTable, isGraph, isBool, QSparqlResult.new,
      QSparqlResultPrivate.new]

/-- C15: a newly created result has `pos() == BeforeFirstRow` and `isValid()`
false; and for a class that is not ForwardOnly and has a constant known size
`n >= 0`, every state reached from the new result by a sequence of `next()`,
`previous()`, `first()`, `last()` and `setPos(p)` has `pos()` equal to
BeforeFirstRow, AfterLastRow or an index in `[0, n)`, and `isValid()` is true
in it iff `0 <= pos() < n`. -/
theorem position_invariant (v : Virtuals) (n : Int) (cs : List NavCall)
    (hfo : v.forwardOnly = false) (hsize : v.size = n) (hn : 0 ≤ n) (hmax : n ≤ INT_MAX) :
    (QSparqlResult.new v).pos = QSparql.BeforeFirstRow ∧
    (QSparqlResult.new v).isValid = false ∧
    ((navigate cs (QSparqlResult.new v)).pos = QSparql.BeforeFirstRow ∨
      (navigate cs (QSparqlResult.new v)).pos = QSparql.AfterLastRow ∨
      (0 ≤ (navigate cs (QSparqlResult.new v)).pos ∧
        (navigate cs (QSparqlResult.new v)).pos < n)) ∧
    ((navigate cs (QSparqlResult.new v)).isValid = true ↔
      (0 ≤ (navigate cs (QSparqlResult.new v)).pos ∧
        (navigate cs (QSparqlResult.new v)).pos < n)) := by
  have hinv : PosInRange n (navigate cs (QSparqlResult.new v)) := by
    have := navigate_posInRange cs (QSparqlResult.new v) hfo
      (by show 0 ≤ v.size; omega) (by show v.size ≤ INT_MAX; omega) (Or.inl rfl)
    have hsz : (QSparqlResult.new v).size = n := hsize
    rwa [hsz] at this
  refine ⟨rfl, rfl, hinv, ?_⟩
  have hv : ∀ x : QSparqlResult, PosInRange n x →
      (x.isValid = true ↔ (0 ≤ x.pos ∧ x.pos < n)) := by
    intro x hx
    unfold PosInRange at hx
    simp only [pos] at hx
    simp only [isValid, pos, QSparql.BeforeFirstRow, QSparql.AfterLastRow] at *
    simp
    omega
  exact hv _ hinv

/-- Witness of C15: a result of three rows after `next()`, `last()`,
`next()`, `previous()`, `setPos(7)`. -/
theorem position_invariant_witness :
    (navigate [NavCall.next, NavCall.last, NavCall.next, NavCall.previous, NavCall.setPos 7]
        (QSparqlResult.new { Virtuals.base with size := 3 })).isValid = true ↔
      (0 ≤ (navigate
          [NavCall.next, NavCall.last, NavCall.next, NavCall.previous, NavCall.setPos 7]
          (QSparqlResult.new { Virtuals.base with size := 3 })).pos ∧
        (navigate [NavCall.next, NavCall.last, NavCall.next, NavCall.previous, NavCall.setPos 7]
          (QSparqlResult.new { Virtuals.base with size := 3 })).pos < 3) :=
  (position_invariant { Virtuals.base with size := 3 } 3
    [NavCall.next, NavCall.last, NavCall.next, NavCall.previous, NavCall.setPos 7]
    (by decide) (by decide) (by decide) (by decide)).2.2.2

/-- C16, as stated, fails: on a new ForwardOnly result whose class has a
`next()` of its own over an empty stream, `first()` is that call of `next()`:
it returns false and moves `pos()` from BeforeFirstRow to AfterLastRow. -/
theorem failed_first_moves_counterexample :
    (QSparqlResult.new { Virtuals.base with forwardOnly := true }).hasFeature
      Feature.ForwardOnly = true ∧
    (QSparqlResult.new { Virtuals.base with forwardOnly := true }).pos
      = QSparql.BeforeFirstRow ∧
    (firstWith (forwardOnlyNext 0)
      (QSparqlResult.new { Virtuals.base with forwardOnly := true })).1 = false ∧
    (firstWith (forwardOnlyNext 0)
      (QSparqlResult.new { Virtuals.base with forwardOnly := true })).2.pos
        = QSparql.AfterLastRow ∧
    (firstWith (forwardOnlyNext 0)
      (QSparqlResult.new { Virtuals.base with forwardOnly := true })).2.pos
        ≠ (QSparqlResult.new { Virtuals.base with forwardOnly := true }).pos := by
  decide

/-- C16, amended: for every result, every state and whatever `next()` the
class has (`vnext`): a `first()` that returns false leaves `pos()` unchanged,
unless the result is ForwardOnly and at BeforeFirstRow, where `first()` is one
call of that `next()` and leaves what it leaves; a `last()` or `setPos(p)`
that returns false leaves `pos()` unchanged; a generic `next()` that returns
false leaves `pos()` unchanged or at AfterLastRow; a `previous()` that returns
false leaves `pos()` unchanged or at BeforeFirstRow; and no navigation call,
failing or not, changes the query text, the statement type, the bool value or
the error, `first()` on a ForwardOnly result at BeforeFirstRow again being
that call of `next()`. -/
theorem failed_navigation_keeps_position (r : QSparqlResult) (p : Int) (c : NavCall)
    (vnext : QSparqlResult → Bool × QSparqlResult) :
    ((firstWith vnext r).1 = false →
      ((firstWith vnext r).2.pos = r.pos ∨
        (r.hasFeature Feature.ForwardOnly = true ∧ r.pos = QSparql.BeforeFirstRow ∧
          firstWith vnext r = vnext r))) ∧
    ((last r).1 = false → (last r).2.pos = r.pos) ∧
    ((r.setPos p).1 = false → (r.setPos p).2.pos = r.pos) ∧
    ((next r).1 = false →
      ((next r).2.pos = r.pos ∨ (next r).2.pos = QSparql.AfterLastRow)) ∧
    ((previous r).1 = false →
      ((previous r).2.pos = r.pos ∨ (previous r).2.pos = QSparql.BeforeFirstRow)) ∧
    (c ≠ NavCall.first →
      ((c.run r).2.query = r.query ∧ (c.run r).2.statementType = r.statementType ∧
        (c.run r).2.boolValue = r.boolValue ∧ (c.run r).2.d.error = r.d.error)) ∧
    (((firstWith vnext r).2.query = r.query ∧
        (firstWith vnext r).2.statementType = r.statementType ∧
        (firstWith vnext r).2.boolValue = r.boolValue ∧
        (firstWith vnext r).2.d.error = r.d.error) ∨
      (r.hasFeature Feature.ForwardOnly = true ∧ r.pos = QSparql.BeforeFirstRow ∧
        firstWith vnext r = vnext r)) := by
  refine ⟨?_, ?_, ?_, ?_, ?_, ?_, ?_⟩
  · intro h
    by_cases hf : r.hasFeature Feature.ForwardOnly = true
    · rcases firstWith_of_forwardOnly vnext r hf with h1 | ⟨hb, h1⟩
      · exact Or.inl (by rw [h1])
      · exact Or.inr ⟨hf, hb, h1⟩
    · left
      rw [firstWith_of_not_forwardOnly vnext r (by simpa using hf)] at h ⊢
      rcases first_frame r with h1 | h1
      · rw [h1]
      · rw [h1] at h; simp at h
  · intro h
    rcases last_frame r with h1 | ⟨i, h1⟩
    · rw [h1]
    · rw [h1] at h; simp at h
  · intro h
    rcases setPos_frame r p with h1 | h1
    · rw [h1]
    · rw [h1] at h; simp at h
  · intro h
    rcases next_frame r with h1 | h1 | ⟨i, h1⟩
    · rw [h1]; exact Or.inl rfl
    · rw [h1]; exact Or.inr rfl
    · rw [h1] at h; simp at h
  · intro h
    rcases previous_frame r with h1 | h1 | ⟨i, h1⟩
    · rw [h1]; exact Or.inl rfl
    · rw [h1]; exact Or.inr rfl
    · rw [h1] at h; simp at h
  · intro _
    obtain ⟨i, hi⟩ := run_frame c r
    rw [hi]
    exact ⟨rfl, rfl, rfl, rfl⟩
  · by_cases hf : r.hasFeature Feature.ForwardOnly = true
    · rcases firstWith_of_forwardOnly vnext r hf with h1 | ⟨hb, h1⟩
      · left
        rw [h1]
        exact ⟨rfl, rfl, rfl, rfl⟩
      · exact Or.inr ⟨hf, hb, h1⟩
    · left
      rw [firstWith_of_not_forwardOnly vnext r (by simpa using hf)]
      obtain ⟨i, hi⟩ := run_frame NavCall.first r
      simp only [NavCall.run] at hi
      rw [hi]
      exact ⟨rfl, rfl, rfl, rfl⟩

/-- Witness of C16 amended: on an empty result standing before the first row
the generic `next()` fails and moves after the last row; on the result class
of the source itself `last()` fails and stays where it was; on a result of
size 0 that is not ForwardOnly `first()` fails and stays where it was. -/
theorem failed_navigation_keeps_position_witness :
    ((next (QSparqlResult.new { Virtuals.base with size := 0 })).2.pos
        = (QSparqlResult.new { Virtuals.base with size := 0 }).pos ∨
      (next (QSparqlResult.new { Virtuals.base with size := 0 })).2.pos
        = QSparql.AfterLastRow) ∧
    (last (QSparqlResult.new Virtuals.base)).2.pos = (QSparqlResult.new Virtuals.base).pos ∧
    ((firstWith (forwardOnlyNext 0)
        (QSparqlResult.new { Virtuals.base with size := 0 })).2.pos
      = (QSparqlResult.new { Virtuals.base with size := 0 }).pos ∨
      ((QSparqlResult.new { Virtuals.base with size := 0 }).hasFeature
          Feature.ForwardOnly = true ∧
        (QSparqlResult.new { Virtuals.base with size := 0 }).pos = QSparql.BeforeFirstRow ∧
        firstWith (forwardOnlyNext 0) (QSparqlResult.new { Virtuals.base with size := 0 })
          = forwardOnlyNext 0 (QSparqlResult.new { Virtuals.base with size := 0 }))) :=
  ⟨(failed_navigation_keeps_position (QSparqlResult.new { Virtuals.base with size := 0 }) 0
      NavCall.next next).2.2.2.1 (by decide),
   (failed_navigation_keeps_position (QSparqlResult.new Virtuals.base) 0
      NavCall.last next).2.1 (by decide),
   (failed_navigation_keeps_position (QSparqlResult.new { Virtuals.base with size := 0 }) 0
      NavCall.first (forwardOnlyNext 0)).1 (by decide)⟩

/-- C17, as stated, fails: on the result class of the source itself (size
unknown) moved to row 0 by `setPos(0)`, `last()` returns false and the result
is still on row 0, a valid position. -/
theorem last_failure_invalid_counterexample :
    ((QSparqlResult.new Virtuals.base).setPos 0).1 = true ∧
    (last ((QSparqlResult.new Virtuals.base).setPos 0).2).1 = false ∧
    (last ((QSparqlResult.new Virtuals.base).setPos 0).2).2.pos = 0 ∧
    (last ((QSparqlResult.new Virtuals.base).setPos 0).2).2.isValid = true := by
  decide

/-- C17, amended: for every result and every state, a `last()` that returns
false leaves the result as it was, so `isValid()` afterwards is what it was
before the call; on a result that is not ForwardOnly, of known size `n >= 0`,
standing on a sentinel or on a row in `[0, n)`, a `last()` that returns false
leaves `isValid()` false. -/
theorem last_failure_keeps_validity (r : QSparqlResult) :
    ((last r).1 = false → (last r).2 = r ∧ (last r).2.isValid = r.isValid) ∧
    (r.hasFeature Feature.ForwardOnly = false → 0 ≤ r.size → r.size ≤ INT_MAX →
      (r.pos = QSparql.BeforeFirstRow ∨ r.pos = QSparql.AfterLastRow ∨
        (0 ≤ r.pos ∧ r.pos < r.size)) →
      (last r).1 = false → (last r).2.isValid = false) := by
  have hkeep : (last r).1 = false → (last r).2 = r := by
    intro h
    rcases last_frame r with h1 | ⟨i, h1⟩
    · rw [h1]
    · rw [h1] at h; simp at h
  constructor
  · intro h
    have := hkeep h
    exact ⟨this, by rw [this]⟩
  · intro hfo hs hmax hp h
    rw [hkeep h]
    by_cases hz : r.size = 0
    · simp only [pos] at hp
      rcases hp with hp | hp | ⟨h0, h1⟩
      · simp [isValid, hp]
      · simp [isValid, hp]
      · omega
    · rw [last_nonempty r hfo (by omega) hmax] at h
      simp at h

/-- Witness of C17 amended: an empty result standing after the last row. -/
theorem last_failure_keeps_validity_witness :
    (last ((QSparqlResult.new { Virtuals.base with size := 0 }).updatePos
      QSparql.AfterLastRow)).2.isValid = false :=
  (last_failure_keeps_validity
    ((QSparqlResult.new { Virtuals.base with size := 0 }).updatePos QSparql.AfterLastRow)).2
    (by decide) (by decide) (by decide) (Or.inr (Or.inl (by decide))) (by decide)

/-- C19: on a result that is not ForwardOnly, of constant size `n >= 0`, that
starts at AfterLastRow, the `k`-th call of `previous()` (`1 <= k <= n`) returns
true and leaves `pos() == n - k`, and the `(n+1)`-th call returns false and
leaves `pos() == BeforeFirstRow`. -/
theorem previous_visits_rows_backwards (r : QSparqlResult) (n : Nat)
    (hfo : r.hasFeature Feature.ForwardOnly = false)
    (hsize : r.size = n) (hmax : (n : Int) ≤ INT_MAX)
    (hp : r.pos = QSparql.AfterLastRow) :
    (∀ k : Nat, 1 ≤ k → k ≤ n →
      (previous (previousTimes (k - 1) r)).1 = true ∧
      (previousTimes k r).pos = (n : Int) - k) ∧
    (previous (previousTimes n r)).1 = false ∧
    (previousTimes (n + 1) r).pos = QSparql.BeforeFirstRow := by
  have hmax2 : r.size ≤ INT_MAX := by rw [hsize]; exact hmax
  have hlast : previous (previousTimes n r)
      = (false, r.updatePos QSparql.BeforeFirstRow) := by
    cases n with
    | zero =>
      simp only [previousTimes]
      exact previous_after_empty r hfo (by simpa using hsize) hp
    | succ m =>
      have h1 := previous_previousTimes r hfo hmax2 hp m (by rw [hsize]; push_cast; omega)
      have hst : previousTimes (m + 1) r = r.updatePos (r.size - 1 - m) := by
        simp only [previousTimes, h1]
      rw [hst]
      have := previous_zero (r.updatePos (r.size - 1 - m)) (by simpa using hfo)
        (by simp [hsize])
      simpa using this
  refine ⟨?_, ?_, ?_⟩
  · intro k hk1 hk2
    obtain ⟨j, rfl⟩ : ∃ j, k = j + 1 := ⟨k - 1, by omega⟩
    have h1 := previous_previousTimes r hfo hmax2 hp j (by rw [hsize]; omega)
    constructor
    · simp [h1]
    · simp only [previousTimes, h1]
      simp [hsize]
      omega
  · rw [hlast]
  · simp only [previousTimes, hlast]
    simp

/-- Witness of C19: a result of three rows standing after the last row; the
second call of `previous()` returns true at row 1, the fourth returns false
before the first row. -/
theorem previous_visits_rows_backwards_witness :
    ((previous (previousTimes 1 ((QSparqlResult.new
        { Virtuals.base with size := 3 }).updatePos QSparql.AfterLastRow))).1 = true ∧
      (previousTimes 2 ((QSparqlResult.new
        { Virtuals.base with size := 3 }).updatePos QSparql.AfterLastRow)).pos = 1) ∧
    (previous (previousTimes 3 ((QSparqlResult.new
        { Virtuals.base with size := 3 }).updatePos QSparql.AfterLastRow))).1 = false ∧
    (previousTimes 4 ((QSparqlResult.new
        { Virtuals.base with size := 3 }).updatePos QSparql.AfterLastRow)).pos
      = QSparql.BeforeFirstRow :=
  have h := previous_visits_rows_backwards
    ((QSparqlResult.new { Virtuals.base with size := 3 }).updatePos QSparql.AfterLastRow) 3
    (by decide) (by decide) (by decide) (by decide)
  ⟨h.1 2 (by decide) (by decide), h.2.1, h.2.2⟩

/-- C20: `updatePos(i)` validates nothing: for every integer `i` (negative
values, the sentinels and indices beyond `size()` included) and every result,
ForwardOnly or not, `pos()` is `i` afterwards and no other field of the
result has changed. -/
theorem updatePos_sets_exactly_pos (r : QSparqlResult) (i : Int) :
    (r.updatePos i).pos = i ∧
    (r.updatePos i).query = r.query ∧
    (r.updatePos i).statementType = r.statementType ∧
    (r.updatePos i).boolValue = r.boolValue ∧
    (r.updatePos i).d.error = r.d.error ∧
    (r.updatePos i).v = r.v :=
  ⟨rfl, rfl, rfl, rfl, rfl, rfl⟩

/-- C21: whenever the result advertises ForwardOnly or `size()` is negative
(as the `-1` of `QSparqlResult::size()` itself), the generic `next()` returns
false and leaves `pos()`, and the whole result, unchanged, in every state:
at BeforeFirstRow, on a row, anywhere. -/
theorem next_without_row_count (r : QSparqlResult)
    (h : r.hasFeature Feature.ForwardOnly = true ∨ r.size < 0) :
    (next r).1 = false ∧ (next r).2.pos = r.pos ∧ next r = (false, r) ∧
    (QSparqlResult.new Virtuals.base).size = -1 := by
  have hn : next r = (false, r) := by
    rw [next_unfold]
    rcases h with h | h
    · simp [h]
    · by_cases hf : r.hasFeature Feature.ForwardOnly = true
      · simp [hf]
      · simp [hf, h]
  rw [hn]
  exact ⟨rfl, rfl, rfl, rfl⟩

/-- Witness of C21: the result class of the source itself (size -1) standing
on row 3. -/
theorem next_without_row_count_witness :
    next ((QSparqlResult.new Virtuals.base).updatePos 3)
      = (false, (QSparqlResult.new Virtuals.base).updatePos 3) :=
  (next_without_row_count ((QSparqlResult.new Virtuals.base).updatePos 3)
    (Or.inr (by decide))).2.2.1

/-- C22, as stated, fails: on an empty result (`size() == 0`) whose position is
the non-negative index 0, `first()` returns true and leaves `pos() == 0`, which
is not below the known `size()`. -/
theorem first_true_not_below_size_counterexample :
    (0 : Int) ≤ ((QSparqlResult.new { Virtuals.base with size := 0 }).updatePos 0).pos ∧
    (first ((QSparqlResult.new { Virtuals.base with size := 0 }).updatePos 0)).1 = true ∧
    (0 : Int) ≤ (first ((QSparqlResult.new { Virtuals.base with size := 0 }).updatePos 0)).2.size ∧
    ¬ ((first ((QSparqlResult.new { Virtuals.base with size := 0 }).updatePos 0)).2.pos
      < (first ((QSparqlResult.new { Virtuals.base with size := 0 }).updatePos 0)).2.size) := by
  decide

/-- C22, amended: for every result and every state, whenever `next()`,
`previous()`, `last()` or `setPos(p)` returns true, or `first()` returns true
from a position other than 0, the result stands on a readable row afterwards:
`isValid()` is true, `pos()` is a non-negative index, below `size()` when
`size()` is known.  Called at `pos() == 0`, `first()` returns true and changes
nothing: `isValid()` is true and `pos()` is 0 afterwards, below `size()` if it
was before the call. -/
theorem success_implies_readable_row (r : QSparqlResult) (p : Int) :
    ((next r).1 = true → OnReadableRow (next r).2) ∧
    ((previous r).1 = true → OnReadableRow (previous r).2) ∧
    ((last r).1 = true → OnReadableRow (last r).2) ∧
    ((r.setPos p).1 = true → OnReadableRow (r.setPos p).2) ∧
    (r.pos ≠ 0 → (first r).1 = true → OnReadableRow (first r).2) ∧
    (r.pos = 0 → first r = (true, r) ∧ (first r).2.isValid = true ∧
      ((0 ≤ r.size → r.pos < r.size) → OnReadableRow (first r).2)) := by
  refine ⟨next_true r, previous_true r, last_true r, setPos_true r p,
    first_true_of_pos_ne_zero r, ?_⟩
  intro h0
  have hf : first r = (true, r) := by simp [first, firstWith, h0]
  have hv : r.isValid = true := by
    simp only [pos] at h0
    simp [isValid, h0]
    decide
  rw [hf]
  refine ⟨rfl, hv, ?_⟩
  intro hlt
  exact ⟨hv, by rw [h0], hlt⟩

/-- Witness of C22 amended: on a new result of three rows `next()` returns true
and stands on a readable row. -/
theorem success_implies_readable_row_witness :
    OnReadableRow (next (QSparqlResult.new { Virtuals.base with size := 3 })).2 :=
  (success_implies_readable_row (QSparqlResult.new { Virtuals.base with size := 3 }) 0).1
    (by decide)

/-- C23: on a result that is not ForwardOnly, of constant known size `n`,
standing on a row `i` in `[0, n)`: `next()` followed by `previous()` ends on
row `i`, and `previous()` followed by `next()` ends on row `i`, also when the
position in between is AfterLastRow or BeforeFirstRow; the result is then as
it was. -/
theorem next_previous_undo (r : QSparqlResult)
    (hfo : r.hasFeature Feature.ForwardOnly = false) (hmax : r.size ≤ INT_MAX)
    (h0 : 0 ≤ r.pos) (h1 : r.pos < r.size) :
    (previous (next r).2).2.pos = r.pos ∧ (next (previous r).2).2.pos = r.pos ∧
    (previous (next r).2).2 = r ∧ (next (previous r).2).2 = r := by
  have hnp : (previous (next r).2).2 = r := by
    by_cases hlt : r.pos + 1 < r.size
    · rw [next_row r hfo hmax h0 hlt]
      have := previous_row (r.updatePos (r.pos + 1)) (by simpa using hfo)
        (by simp; omega) (by simp; omega) (Or.inr (by simp; omega))
      rw [this]
      simp only [updatePos_pos, updatePos_updatePos]
      exact updatePos_self r _ (by omega)
    · rw [next_lastRow r hfo (by omega) h0 (by omega) (by omega)]
      have := previous_after (r.updatePos QSparql.AfterLastRow) (by simpa using hfo)
        (by simp; omega) (by simpa using hmax) (by simp)
      rw [this]
      simp only [updatePos_size, updatePos_updatePos]
      exact updatePos_self r _ (by omega)
  have hpn : (next (previous r).2).2 = r := by
    by_cases hz : r.pos = 0
    · rw [previous_zero r hfo hz]
      have := next_before (r.updatePos QSparql.BeforeFirstRow) (by simpa using hfo)
        (by simp; omega) (by simp)
      rw [this]
      simp only [updatePos_updatePos]
      exact updatePos_self r _ hz
    · rw [previous_row r hfo (by omega) (by omega) (Or.inr (by omega))]
      have := next_row (r.updatePos (r.pos - 1)) (by simpa using hfo) (by simpa using hmax)
        (by simp; omega) (by simp; omega)
      rw [this]
      simp only [updatePos_pos, updatePos_updatePos]
      exact updatePos_self r _ (by omega)
  exact ⟨by rw [hnp], by rw [hpn], hnp, hpn⟩

/-- Witness of C23: a result of three rows standing on its last row, where
`next()` passes through AfterLastRow. -/
theorem next_previous_undo_witness :
    (previous (next ((QSparqlResult.new { Virtuals.base with size := 3 }).updatePos 2)).2).2.pos
      = ((QSparqlResult.new { Virtuals.base with size := 3 }).updatePos 2).pos ∧
    (next (previous ((QSparqlResult.new { Virtuals.base with size := 3 }).updatePos 2)).2).2.pos
      = ((QSparqlResult.new { Virtuals.base with size := 3 }).updatePos 2).pos :=
  have h := next_previous_undo ((QSparqlResult.new { Virtuals.base with size := 3 }).updatePos 2)
    (by decide) (by decide) (by decide) (by decide)
  ⟨h.1, h.2.1⟩

/-- C24: `setQuery`, `setStatementType`, `setBoolValue` and `setLastError` each
change only their own field, which `query()`, `statementType()`, `boolValue()`
and (on a finished result) `lastError()` read back, and none of them changes
`pos()` or `isValid()`. -/
theorem setters_change_own_field_only (r : QSparqlResult) (q : String)
    (t : QSparqlQuery.StatementType) (b : Bool) (e : QSparqlError) :
    ((r.setQuery q).query = q ∧ (r.setQuery q).statementType = r.statementType ∧
      (r.setQuery q).boolValue = r.boolValue ∧ (r.setQuery q).d.error = r.d.error ∧
      (r.setQuery q).pos = r.pos ∧ (r.setQuery q).isValid = r.isValid ∧
      (r.setQuery q).v = r.v) ∧
    ((r.setStatementType t).statementType = t ∧ (r.setStatementType t).query = r.query ∧
      (r.setStatementType t).boolValue = r.boolValue ∧
      (r.setStatementType t).d.error = r.d.error ∧
      (r.setStatementType t).pos = r.pos ∧ (r.setStatementType t).isValid = r.isValid ∧
      (r.setStatementType t).v = r.v) ∧
    ((r.setBoolValue b).boolValue = b ∧ (r.setBoolValue b).query = r.query ∧
      (r.setBoolValue b).statementType = r.statementType ∧
      (r.setBoolValue b).d.error = r.d.error ∧
      (r.setBoolValue b).pos = r.pos ∧ (r.setBoolValue b).isValid = r.isValid ∧
      (r.setBoolValue b).v = r.v) ∧
    ((r.setLastError e).d.error = e ∧ (r.setLastError e).query = r.query ∧
      (r.setLastError e).statementType = r.statementType ∧
      (r.setLastError e).boolValue = r.boolValue ∧
      (r.setLastError e).pos = r.pos ∧ (r.setLastError e).isValid = r.isValid ∧
      (r.setLastError e).v = r.v) ∧
    (r.isFinished = true → (r.setLastError e).lastError = e) := by
  refine ⟨⟨rfl, rfl, rfl, rfl, rfl, rfl, rfl⟩, ⟨rfl, rfl, rfl, rfl, rfl, rfl, rfl⟩,
    ⟨rfl, rfl, rfl, rfl, rfl, rfl, rfl⟩, ⟨rfl, rfl, rfl, rfl, rfl, rfl, rfl⟩, ?_⟩
  intro h
  simp only [isFinished] at h
  simp [lastError, setLastError, isFinished, h]

/-- Witness of C24: a finished result reads back the `StatementError` it was
given. -/
theorem setters_change_own_field_only_witness :
    ((QSparqlResult.new { Virtuals.base with isFinished := true }).setLastError
        { type := QSparqlError.ErrorType.StatementError, message := "y" }).lastError
      = { type := QSparqlError.ErrorType.StatementError, message := "y" } :=
  (setters_change_own_field_only (QSparqlResult.new { Virtuals.base with isFinished := true })
    "" QSparqlQuery.StatementType.AskStatement true
    { type := QSparqlError.ErrorType.StatementError, message := "y" }).2.2.2.2 rfl
